import Mathlib

/-!
# Alarm scheduler with semaphore-protected lists (`assign3/alarm_cond.c`)

A shallow embedding of the three global singly-linked lists of `alarm_cond.c`
(`alarm_list`, `thread_list`, `removal_list`) and of the functions that read and
mutate them.  A linked list is a Lean `List` read from the head pointer to the
`NULL` link; a C `int` field is an `Int`; a `while(1)` loop is a recursive
function whose termination is proved.  The list functions are modelled
sequentially: each is the effect of one complete call, and a run of the program
is a sequence of such calls.  The semaphores that guard `alarm_list` are modelled
on their own, as a transition system over the statements of the lock and
release functions.
-/

namespace AlarmCond

/-! ## Data model -/

/-- The `alarm_t` node without its `link` field.  `message` is the content of the
`char message[128]` buffer, `time` the absolute `time_t` deadline, `is_done` the
C truth value (zero means not done). -/
structure alarm_t where
  seconds : Int
  time : Int
  message : String
  number : Int
  type : Int
  is_done : Int
deriving DecidableEq, Repr

/-- The `thread_ds` node without its `link` field. -/
structure thread_ds where
  type : Int
  is_created : Int
deriving DecidableEq, Repr

/-- The `removal_ds` node without its `link` field. -/
structure removal_ds where
  number : Int
deriving DecidableEq, Repr

/-- The three global lists of the program. -/
structure State where
  alarm_list : List alarm_t
  thread_list : List thread_ds
  removal_list : List removal_ds
deriving DecidableEq, Repr

/-! ## Request store: `alarm_list` -/

/-- `add_to_alarm_list`: walk the list; link the new alarm in front of the first
node with a larger `number`, or in place of the first node with the same
`number`; at the `NULL` end append it. -/
def add_to_alarm_list (alarm : alarm_t) : List alarm_t → List alarm_t
  | [] => [alarm]
  | next :: link =>
    if next.number > alarm.number then alarm :: next :: link
    else if next.number = alarm.number then alarm :: link
    else next :: add_to_alarm_list alarm link

/-- The inner scan of `remove_from_alarm_list`,
`while(temp != NULL && temp->number != msg_number)`, followed by the unlink
`prev->link = temp->link`.  `none` is the case `temp == NULL`. -/
def unlink_scan (msg_number : Int) : List alarm_t → Option (List alarm_t)
  | [] => none
  | temp :: link =>
    if temp.number ≠ msg_number then (unlink_scan msg_number link).map (fun l => temp :: l)
    else some link

/-- One iteration of the `while(1)` of `remove_from_alarm_list`: `some l` when a
node was unlinked and the loop goes round again, `none` when the loop breaks. -/
def remove_from_alarm_list_iter (msg_number : Int) (alarm_list : List alarm_t) :
    Option (List alarm_t) :=
  match alarm_list with
  | temp :: link =>
    if temp.number = msg_number then some link
    else unlink_scan msg_number (temp :: link)
  | [] => unlink_scan msg_number []

theorem unlink_scan_length (n : Int) :
    ∀ (l l' : List alarm_t), unlink_scan n l = some l' → l'.length + 1 = l.length := by
  intro l
  induction l with
  | nil => intro l' h; simp [unlink_scan] at h
  | cons a t ih =>
    intro l' h
    by_cases ha : a.number = n
    · simp [unlink_scan, ha] at h
      subst h
      simp
    · simp only [unlink_scan, ne_eq, ha, not_false_eq_true, if_true, Option.map_eq_some'] at h
      obtain ⟨t', ht', rfl⟩ := h
      have := ih t' ht'
      simp [this]

theorem remove_from_alarm_list_iter_length (n : Int) (l l' : List alarm_t)
    (h : remove_from_alarm_list_iter n l = some l') : l'.length + 1 = l.length := by
  cases l with
  | nil => simp [remove_from_alarm_list_iter, unlink_scan] at h
  | cons a t =>
    by_cases ha : a.number = n
    · simp [remove_from_alarm_list_iter, ha] at h
      subst h
      simp
    · simp only [remove_from_alarm_list_iter, ha, if_false] at h
      exact unlink_scan_length n _ _ h

/-- `remove_from_alarm_list`: repeat the iteration until it breaks. -/
def remove_from_alarm_list (msg_number : Int) (alarm_list : List alarm_t) : List alarm_t :=
  match h : remove_from_alarm_list_iter msg_number alarm_list with
  | none => alarm_list
  | some l => remove_from_alarm_list msg_number l
termination_by alarm_list.length
decreasing_by
  have := remove_from_alarm_list_iter_length msg_number alarm_list l h
  omega

theorem unlink_scan_eq_filter (n : Int) :
    ∀ (l l' : List alarm_t), unlink_scan n l = some l' →
      l'.filter (fun a => decide (a.number ≠ n)) = l.filter (fun a => decide (a.number ≠ n)) := by
  intro l
  induction l with
  | nil => intro l' h; simp [unlink_scan] at h
  | cons a t ih =>
    intro l' h
    by_cases ha : a.number = n
    · simp [unlink_scan, ha] at h
      subst h
      simp [ha]
    · simp only [unlink_scan, ne_eq, ha, not_false_eq_true, if_true, Option.map_eq_some'] at h
      obtain ⟨t', ht', rfl⟩ := h
      simpa [ha] using ih t' ht'

theorem unlink_scan_none (n : Int) :
    ∀ l : List alarm_t, unlink_scan n l = none → ∀ a ∈ l, a.number ≠ n := by
  intro l
  induction l with
  | nil => simp
  | cons a t ih =>
    intro h
    by_cases ha : a.number = n
    · simp [unlink_scan, ha] at h
    · simp only [unlink_scan, ne_eq, ha, not_false_eq_true, if_true, Option.map_eq_none'] at h
      intro b hb
      rcases List.mem_cons.mp hb with rfl | hb
      · exact ha
      · exact ih h b hb

theorem remove_from_alarm_list_eq_filter (n : Int) (l : List alarm_t) :
    remove_from_alarm_list n l = l.filter (fun a => decide (a.number ≠ n)) := by
  induction l using remove_from_alarm_list.induct n with
  | case1 l h =>
    rw [remove_from_alarm_list]
    split
    · have hall : ∀ a ∈ l, a.number ≠ n := by
        cases l with
        | nil => simp
        | cons a t =>
          by_cases ha : a.number = n
          · simp [remove_from_alarm_list_iter, ha] at h
          · simp only [remove_from_alarm_list_iter, ha, if_false] at h
            exact unlink_scan_none n _ h
      symm
      rw [List.filter_eq_self]
      intro a ha
      simpa using hall a ha
    · rename_i l' h'
      rw [h] at h'
      cases h'
  | case2 l l' h ih =>
    rw [remove_from_alarm_list]
    split
    · rename_i h'
      rw [h] at h'
      cases h'
    · rename_i l2 h'
      rw [h] at h'
      cases h'
      rw [ih]
      cases l with
      | nil => simp [remove_from_alarm_list_iter, unlink_scan] at h
      | cons a t =>
        by_cases ha : a.number = n
        · simp [remove_from_alarm_list_iter, ha] at h
          subst h
          simp [ha]
        · simp only [remove_from_alarm_list_iter, ha, if_false] at h
          exact unlink_scan_eq_filter n _ _ h

theorem remove_from_alarm_list_length_lt (next : alarm_t) (l : List alarm_t) (h : next ∈ l) :
    (remove_from_alarm_list next.number l).length < l.length := by
  rw [remove_from_alarm_list_eq_filter]
  apply List.length_filter_lt_length_iff_exists.mpr
  exact ⟨next, h, by simp⟩

/-- `alarm_exists`: the counter `alr_exists` after the scan selected by `type`
(0: match on the message type, 1: match on the message number); only nodes whose
`is_done` is zero are counted.  The counter is an unbounded integer here: lists
are taken to hold fewer than 2^31 nodes. -/
def alarm_exists (msg_id : Int) (type : Int) (alarm_list : List alarm_t) : Int :=
  if type = 0 then
    (alarm_list.countP (fun next => decide (next.type = msg_id ∧ next.is_done = 0)) : Nat)
  else if type = 1 then
    (alarm_list.countP (fun next => decide (next.number = msg_id ∧ next.is_done = 0)) : Nat)
  else 0

/-- `remove_alarms_that_are_done`: the scan stops at the first node with
`is_done` set and copies its number into `msg_number` (initially `-1`); the loop
breaks when `msg_number < 0`, otherwise every node with that number is removed
and the loop goes round again. -/
def remove_alarms_that_are_done (alarm_list : List alarm_t) : List alarm_t :=
  match h : alarm_list.find? (fun next => decide (next.is_done ≠ 0)) with
  | none => alarm_list
  | some next =>
    if next.number < 0 then alarm_list
    else remove_alarms_that_are_done (remove_from_alarm_list next.number alarm_list)
termination_by alarm_list.length
decreasing_by
  exact remove_from_alarm_list_length_lt next alarm_list (List.mem_of_find?_eq_some h)

/-! ## Worker registry: `thread_list` -/

/-- `remove_from_thread_list`: unlink the first node whose type is `msg_type`,
if there is one. -/
def remove_from_thread_list (msg_type : Int) : List thread_ds → List thread_ds
  | [] => []
  | temp :: link =>
    if temp.type = msg_type then link
    else temp :: remove_from_thread_list msg_type link

/-- `thread_exists`: the counter `does_exist` after the scan. -/
def thread_exists (msg_type : Int) (thread_list : List thread_ds) : Int :=
  (thread_list.countP (fun s => decide (s.type = msg_type)) : Nat)

/-- `thread_has_active_alarm`: `exists += alarm_exists(msg_type, 0)` from zero. -/
def thread_has_active_alarm (msg_type : Int) (alarm_list : List alarm_t) : Int :=
  0 + alarm_exists msg_type 0 alarm_list

theorem remove_from_thread_list_length (msg_type : Int) :
    ∀ l : List thread_ds, (∃ t ∈ l, t.type = msg_type) →
      (remove_from_thread_list msg_type l).length + 1 = l.length := by
  intro l
  induction l with
  | nil => simp
  | cons a t ih =>
    intro h
    by_cases ha : a.type = msg_type
    · simp [remove_from_thread_list, ha]
    · have ht : ∃ x ∈ t, x.type = msg_type := by
        obtain ⟨x, hx, hxt⟩ := h
        rcases List.mem_cons.mp hx with rfl | hx
        · exact absurd hxt ha
        · exact ⟨x, hx, hxt⟩
      simp [remove_from_thread_list, ha, ih ht]

/-- `remove_threads_if_no_active_alarm`: the scan stops at the first record for
which `thread_has_active_alarm` is zero and copies its type into `msg_type`
(initially `-1`); the loop breaks when `msg_type < 0`, otherwise
`remove_from_thread_list(msg_type)` runs and the loop goes round again. -/
def remove_threads_if_no_active_alarm (s : State) : State :=
  match h : s.thread_list.find?
      (fun next => decide (thread_has_active_alarm next.type s.alarm_list = 0)) with
  | none => s
  | some next =>
    if next.type < 0 then s
    else remove_threads_if_no_active_alarm
      { s with thread_list := remove_from_thread_list next.type s.thread_list }
termination_by s.thread_list.length
decreasing_by
  have := remove_from_thread_list_length next.type s.thread_list
    ⟨next, List.mem_of_find?_eq_some h, rfl⟩
  show (remove_from_thread_list next.type s.thread_list).length < s.thread_list.length
  omega

/-- `check_thread_list_and_create_thread`: every record whose `is_created` is
zero gets `is_created = 1` and one `pthread_create` of
`periodic_display_threads` on its type (taken to succeed; a failure aborts the
process).  The second component is the sequence of types the threads were
created for, in the order of creation. -/
def check_thread_list_and_create_thread : List thread_ds → List thread_ds × List Int
  | [] => ([], [])
  | next :: link =>
    let r := check_thread_list_and_create_thread link
    if next.is_created = 0 then ({ next with is_created := 1 } :: r.1, next.type :: r.2)
    else (next :: r.1, r.2)

/-! ## Cancellation queue: `removal_list` -/

/-- `add_to_removal_list`: a new node at the tail. -/
def add_to_removal_list (msg_number : Int) : List removal_ds → List removal_ds
  | [] => [{ number := msg_number }]
  | next :: link => next :: add_to_removal_list msg_number link

/-- `remove_alarms_in_removal_list`: `remove_from_alarm_list` for every queued
number in list order, then `removal_list = NULL`. -/
def remove_alarms_in_removal_list (s : State) : State :=
  { s with
    alarm_list :=
      s.removal_list.foldl (fun l next => remove_from_alarm_list next.number l) s.alarm_list
    removal_list := [] }

/-! ## Coordinator and display worker -/

/-- One iteration of the `while(1)` of `alarm_thread`, up to the `sleep(1)`.  The
second component lists the types display threads were created for. -/
def alarm_thread_iter (s : State) : State × List Int :=
  let s1 : State := { s with alarm_list := remove_alarms_that_are_done s.alarm_list }
  let s2 := remove_threads_if_no_active_alarm s1
  let r := check_thread_list_and_create_thread s2.thread_list
  let s3 : State := { s2 with thread_list := r.1 }
  (remove_alarms_in_removal_list s3, r.2)

/-- Conversion of a `time_t` difference to the C `int` `remaining_time`
(two's complement, 32 bits). -/
def to_int (x : Int) : Int := (x + 2 ^ 31) % 2 ^ 32 - 2 ^ 31

/-- The `for` scan of `periodic_display_threads`, with `now` the value `time(NULL)`
returns during the scan: the list after the scan and the printed lines (node and
remaining time). -/
def display_scan (message_type now : Int) :
    List alarm_t → List alarm_t × List (alarm_t × Int)
  | [] => ([], [])
  | next :: link =>
    let r := display_scan message_type now link
    if next.type = message_type ∧ next.is_done = 0 then
      let remaining_time := to_int (next.time - now)
      if remaining_time ≥ 0 then (next :: r.1, (next, remaining_time) :: r.2)
      else ({ next with is_done := 1 } :: r.1, r.2)
    else (next :: r.1, r.2)

/-- The outcome of one iteration of a display thread. -/
structure display_result where
  state : State
  printed : List (alarm_t × Int)
  terminated : Bool
deriving DecidableEq, Repr

/-- One iteration of the `while(1)` of `periodic_display_threads`: the scan, then
the `thread_exists` test that breaks out of the loop. -/
def periodic_display_threads_iter (message_type now : Int) (s : State) : display_result :=
  let r := display_scan message_type now s.alarm_list
  { state := { s with alarm_list := r.1 }
    printed := r.2
    terminated := decide (thread_exists message_type s.thread_list = 0) }

/-! ## Command loop: `main` -/

/-- `add_to_thread_list`: a new node with `is_created = 0` at the tail. -/
def add_to_thread_list (msg_type : Int) : List thread_ds → List thread_ds
  | [] => [{ type := msg_type, is_created := 0 }]
  | next :: link => next :: add_to_thread_list msg_type link

/-- `remove_request_exists`: `does_exist` after the scan, 1 when some node holds
`msg_number` and 0 otherwise. -/
def remove_request_exists (msg_number : Int) (removal_list : List removal_ds) : Int :=
  removal_list.foldl (fun does_exist s => if s.number = msg_number then 1 else does_exist) 0

/-- The terminating character of a C string. -/
def NUL : Char := Char.ofNat 0

/-- The C library call `strncpy(dest, src, n)`: the `n` bytes written to `dest`.
The characters of `src` in front of its first `NUL` are copied, at most `n` of
them, and the rest of the `n` bytes is filled with `NUL`; when `src` holds `n`
or more characters in front of its first `NUL`, no `NUL` is written. -/
def strncpy (src : List Char) (n : Nat) : List Char :=
  ((src.takeWhile (fun ch => decide (ch ≠ NUL))).take n) ++
    List.replicate (n - ((src.takeWhile (fun ch => decide (ch ≠ NUL))).take n).length) NUL

/-- What the three `sscanf` calls of `main` leave behind for one input line: the
three return values, the integers converted, and the characters `%1000[^\n]`
stored in `tempS` (in front of the `NUL` that `sscanf` appends). -/
structure parsed_line where
  err_t1 : Int
  err_t2 : Int
  err_t3 : Int
  t1_sec : Int
  t1_type : Int
  t1_num : Int
  tempS : List Char
  t2_type : Int
  t3_num : Int
deriving DecidableEq, Repr

/-- Which branch of the loop body of `main` handled the line. -/
inductive main_outcome where
  | bad_command
  | bad_value
  | alarm_inserted
  | thread_requested
  | thread_duplicate
  | thread_no_alarm
  | cancel_queued
  | cancel_duplicate
  | cancel_no_alarm
  | no_branch
deriving DecidableEq, Repr

/-- The second `if` chain of the input validation block of `main`: `true` when it
prints the usage text and restarts the loop with `continue`. -/
def validation_continue (p : parsed_line) : Bool :=
  if p.err_t1 = 3 then decide (p.t1_sec ≤ 0 ∨ p.t1_type ≤ 0 ∨ p.t1_num ≤ 0)
  else if p.err_t2 = 1 then decide (p.t2_type ≤ 0)
  else if p.err_t3 = 1 then decide (p.t3_num ≤ 0)
  else false

/-- The alarm `main` fills in for a line of the first form, `now` being the value
of `time(NULL)`: `t1_msg` is `strncpy(t1_msg, tempS, 128)` and the message is
`strncpy(alarm->message, t1_msg, 128)`. -/
def new_alarm (now : Int) (p : parsed_line) : alarm_t :=
  { seconds := p.t1_sec
    time := now + p.t1_sec
    message := String.mk (strncpy (strncpy (p.tempS ++ [NUL]) 128) 128)
    number := p.t1_num
    type := p.t1_type
    is_done := 0 }

/-- The body of the `while (1)` of `main` after the three `sscanf` calls, for one
line that is not empty: the validation block, then the block that inserts an
alarm, asks for a thread or queues a cancellation.  The writer threads are
joined (`DEGUG` is defined), so each runs to its end inside the iteration. -/
def main_iter (now : Int) (p : parsed_line) (s : State) : State × main_outcome :=
  if p.err_t1 < 4 ∧ p.err_t2 < 1 ∧ p.err_t3 < 1 then (s, .bad_command)
  else if validation_continue p then (s, .bad_value)
  else if p.err_t1 = 4 then
    ({ s with alarm_list := add_to_alarm_list (new_alarm now p) s.alarm_list }, .alarm_inserted)
  else if p.err_t2 = 1 then
    if alarm_exists p.t2_type 0 s.alarm_list ≠ 0 then
      if thread_exists p.t2_type s.thread_list = 0 then
        ({ s with thread_list := add_to_thread_list p.t2_type s.thread_list },
          .thread_requested)
      else (s, .thread_duplicate)
    else (s, .thread_no_alarm)
  else if p.err_t3 = 1 then
    if alarm_exists p.t3_num 1 s.alarm_list ≠ 0 then
      if remove_request_exists p.t3_num s.removal_list = 0 then
        ({ s with removal_list := add_to_removal_list p.t3_num s.removal_list },
          .cancel_queued)
      else (s, .cancel_duplicate)
    else (s, .cancel_no_alarm)
  else (s, .no_branch)

/-! ## The running program as a transition system -/

/-- The three lists, the message types of the display threads that are running,
and the clock. -/
structure System where
  lists : State
  workers : List Int
  now : Int
deriving DecidableEq, Repr

/-- An atomic step of the program: `main` handles one line, `alarm_thread` runs
one iteration, the display thread at position `i` of `workers` runs one
iteration, or the clock advances by `d` seconds. -/
inductive action where
  | command (p : parsed_line)
  | coordinator
  | worker (i : Nat)
  | tick (d : Nat)
deriving DecidableEq, Repr

/-- The effect of one step.  A display thread that breaks out of its loop leaves
`workers`; a `worker` step for a position past the end does nothing. -/
def apply_action (sys : System) : action → System
  | .command p => { sys with lists := (main_iter sys.now p sys.lists).1 }
  | .coordinator =>
    { sys with
      lists := (alarm_thread_iter sys.lists).1
      workers := sys.workers ++ (alarm_thread_iter sys.lists).2 }
  | .worker i =>
    match sys.workers.get? i with
    | none => sys
    | some message_type =>
      { sys with
        lists := (periodic_display_threads_iter message_type sys.now sys.lists).state
        workers :=
          if (periodic_display_threads_iter message_type sys.now sys.lists).terminated
          then sys.workers.eraseIdx i else sys.workers }
  | .tick d => { sys with now := sys.now + d }

/-- The program at start: three empty lists, no display thread, clock `t0`. -/
def initial (t0 : Int) : System :=
  { lists := { alarm_list := [], thread_list := [], removal_list := [] }
    workers := []
    now := t0 }

/-- The state after the steps `acts`, oldest first, from the start. -/
def run (t0 : Int) (acts : List action) : System := acts.foldl apply_action (initial t0)

/-! ## The semaphores of `alarm_list` -/

/-- The two semaphores and the counter that guard `alarm_list`, and the number of
threads at each point of the code that uses them.  A reader thread runs
`alarm_reader_semaphore_lock`, scans, and runs `alarm_reader_semaphore_release`;
a writer thread runs `sem_wait(&alarmListAccess)`, mutates, and runs
`sem_post(&alarmListAccess)`.  Threads are not told apart: only how many stand
at each point matters. -/
structure rw_state where
  /-- The value of the semaphore `readCountAccess`. -/
  readCountAccess : Nat
  /-- The value of the semaphore `alarmListAccess`. -/
  alarmListAccess : Nat
  /-- The variable `readCount`. -/
  readCount : Int
  /-- Readers in `lock` past `sem_wait(&readCountAccess)`, before `readCount++`. -/
  lock_entered : Nat
  /-- Readers in `lock` that found `readCount==1`, at `sem_wait(&alarmListAccess)`. -/
  lock_first : Nat
  /-- Readers in `lock` at the closing `sem_post(&readCountAccess)`. -/
  lock_leaving : Nat
  /-- Readers between `lock` and `release`: inside their scan. -/
  reading : Nat
  /-- Readers in `release` past `sem_wait(&readCountAccess)`, before `readCount--`. -/
  release_entered : Nat
  /-- Readers in `release` that found `readCount==0`, at `sem_post(&alarmListAccess)`. -/
  release_last : Nat
  /-- Readers in `release` at the closing `sem_post(&readCountAccess)`. -/
  release_leaving : Nat
  /-- Writers between `sem_wait(&alarmListAccess)` and `sem_post(&alarmListAccess)`. -/
  writing : Nat
deriving DecidableEq, Repr

/-- The statements a thread executes as one step. -/
inductive rw_action where
  /-- A reader enters `lock`: `sem_wait(&readCountAccess)`. -/
  | lock_wait
  /-- `readCount++; if(readCount==1)`. -/
  | lock_count
  /-- `sem_wait(&alarmListAccess)` of the first reader. -/
  | lock_gate
  /-- `sem_post(&readCountAccess)` and return from `lock`. -/
  | lock_post
  /-- A reader enters `release`: `sem_wait(&readCountAccess)`. -/
  | release_wait
  /-- `readCount--; if(readCount==0)`. -/
  | release_count
  /-- `sem_post(&alarmListAccess)` of the last reader. -/
  | release_gate
  /-- `sem_post(&readCountAccess)` and return from `release`. -/
  | release_post
  /-- A writer runs `sem_wait(&alarmListAccess)`. -/
  | write_wait
  /-- A writer runs `sem_post(&alarmListAccess)`. -/
  | write_post
deriving DecidableEq, Repr

/-- One step: `none` when no thread stands at that statement or the statement is
a `sem_wait` on a semaphore whose value is zero (the thread stays blocked). -/
def rw_step (s : rw_state) : rw_action → Option rw_state
  | .lock_wait =>
    if 0 < s.readCountAccess then
      some { s with readCountAccess := s.readCountAccess - 1, lock_entered := s.lock_entered + 1 }
    else none
  | .lock_count =>
    if 0 < s.lock_entered then
      if s.readCount + 1 = 1 then
        some { s with readCount := s.readCount + 1, lock_entered := s.lock_entered - 1,
                      lock_first := s.lock_first + 1 }
      else
        some { s with readCount := s.readCount + 1, lock_entered := s.lock_entered - 1,
                      lock_leaving := s.lock_leaving + 1 }
    else none
  | .lock_gate =>
    if 0 < s.lock_first ∧ 0 < s.alarmListAccess then
      some { s with alarmListAccess := s.alarmListAccess - 1, lock_first := s.lock_first - 1,
                    lock_leaving := s.lock_leaving + 1 }
    else none
  | .lock_post =>
    if 0 < s.lock_leaving then
      some { s with readCountAccess := s.readCountAccess + 1,
                    lock_leaving := s.lock_leaving - 1, reading := s.reading + 1 }
    else none
  | .release_wait =>
    if 0 < s.reading ∧ 0 < s.readCountAccess then
      some { s with readCountAccess := s.readCountAccess - 1, reading := s.reading - 1,
                    release_entered := s.release_entered + 1 }
    else none
  | .release_count =>
    if 0 < s.release_entered then
      if s.readCount - 1 = 0 then
        some { s with readCount := s.readCount - 1, release_entered := s.release_entered - 1,
                      release_last := s.release_last + 1 }
      else
        some { s with readCount := s.readCount - 1, release_entered := s.release_entered - 1,
                      release_leaving := s.release_leaving + 1 }
    else none
  | .release_gate =>
    if 0 < s.release_last then
      some { s with alarmListAccess := s.alarmListAccess + 1,
                    release_last := s.release_last - 1,
                    release_leaving := s.release_leaving + 1 }
    else none
  | .release_post =>
    if 0 < s.release_leaving then
      some { s with readCountAccess := s.readCountAccess + 1,
                    release_leaving := s.release_leaving - 1 }
    else none
  | .write_wait =>
    if 0 < s.alarmListAccess then
      some { s with alarmListAccess := s.alarmListAccess - 1, writing := s.writing + 1 }
    else none
  | .write_post =>
    if 0 < s.writing then
      some { s with alarmListAccess := s.alarmListAccess + 1, writing := s.writing - 1 }
    else none

/-- The state `main` sets up: both semaphores at 1 (`sem_init`), `readCount` 0,
no thread inside the guarded code. -/
def rw_initial : rw_state :=
  { readCountAccess := 1, alarmListAccess := 1, readCount := 0, lock_entered := 0,
    lock_first := 0, lock_leaving := 0, reading := 0, release_entered := 0,
    release_last := 0, release_leaving := 0, writing := 0 }

/-- The state after the steps `acts` from `s`, oldest first; `none` when one of
them cannot be taken. -/
def rw_run (s : rw_state) : List rw_action → Option rw_state
  | [] => some s
  | a :: rest =>
    match rw_step s a with
    | none => none
    | some s' => rw_run s' rest

/-! ## Specification vocabulary -/

/-- A head-to-tail traversal meets strictly ascending numbers. -/
def ascending (l : List alarm_t) : Prop := l.Pairwise (fun x y => x.number < y.number)

instance (l : List alarm_t) : Decidable (ascending l) := by
  unfold ascending
  infer_instance

/-- The store after the submissions `subs`, oldest first, starting from the
empty list. -/
def submit_all (subs : List alarm_t) : List alarm_t :=
  subs.foldl (fun l a => add_to_alarm_list a l) []

/-- A mutation of the request store. -/
inductive store_op where
  | insert (alarm : alarm_t)
  | remove (msg_number : Int)
deriving DecidableEq, Repr

/-- The effect of one mutation. -/
def apply_op (l : List alarm_t) : store_op → List alarm_t
  | .insert alarm => add_to_alarm_list alarm l
  | .remove msg_number => remove_from_alarm_list msg_number l

/-- The store after the mutations `ops`, oldest first, starting from the empty
list. -/
def run_ops (ops : List store_op) : List alarm_t := ops.foldl apply_op []

/-- The state once a cancellation of `X` has been queued and the alarms `subs`
have then been submitted, oldest first. -/
def cancel_then_submit (s : State) (X : Int) (subs : List alarm_t) : State :=
  { s with
    removal_list := add_to_removal_list X s.removal_list
    alarm_list := subs.foldl (fun l a => add_to_alarm_list a l) s.alarm_list }

/-- The lists at the moment an iteration of `alarm_thread` calls
`check_thread_list_and_create_thread`: after `remove_alarms_that_are_done` and
`remove_threads_if_no_active_alarm`. -/
def state_at_launch (s : State) : State :=
  remove_threads_if_no_active_alarm
    { s with alarm_list := remove_alarms_that_are_done s.alarm_list }

/-- What `sscanf` leaves for a line `<seconds> Message(<type>, <number>) <text>`:
the first pattern converts all four fields, the other two convert nothing. -/
def is_alarm_line (p : parsed_line) : Prop := p.err_t1 = 4 ∧ p.err_t2 < 1 ∧ p.err_t3 < 1

/-- What `sscanf` leaves for a line `Create_Thread: MessageType(c)`: the first
pattern converts nothing, the second converts `c`. -/
def is_create_thread_line (p : parsed_line) (c : Int) : Prop :=
  p.err_t1 < 1 ∧ p.err_t2 = 1 ∧ p.t2_type = c

/-- What `sscanf` leaves for a line `Cancel: Message(x)`: the first two patterns
convert nothing, the third converts `x`. -/
def is_cancel_line (p : parsed_line) (x : Int) : Prop :=
  p.err_t1 < 1 ∧ p.err_t2 < 1 ∧ p.err_t3 = 1 ∧ p.t3_num = x

instance (p : parsed_line) : Decidable (is_alarm_line p) := by
  unfold is_alarm_line
  infer_instance

instance (p : parsed_line) (c : Int) : Decidable (is_create_thread_line p c) := by
  unfold is_create_thread_line
  infer_instance

instance (p : parsed_line) (x : Int) : Decidable (is_cancel_line p x) := by
  unfold is_cancel_line
  infer_instance

/-- A step that does not register a type some running display thread is still
bound to: a line that makes `main` append a record has a type outside
`workers`. -/
def no_stale_register (sys : System) : action → Bool
  | .command p =>
    decide ((main_iter sys.now p sys.lists).2 = main_outcome.thread_requested →
      p.t2_type ∉ sys.workers)
  | _ => true

/-- Every step of `acts`, taken in turn from `sys`, is such a step. -/
def all_no_stale_register (sys : System) : List action → Bool
  | [] => true
  | a :: rest => no_stale_register sys a && all_no_stale_register (apply_action sys a) rest

/-- The number of records of type `c` for which no thread has been created. -/
def pending (c : Int) (thread_list : List thread_ds) : Nat :=
  (thread_list.filter (fun t => decide (t.type = c ∧ t.is_created = 0))).length

/-- The coordinator step written with filters: done alarms and queued numbers
are filtered out, records without a live alarm are filtered out, and the threads
are created on what is left. -/
def coordinator_filtered (sys : System) : System :=
  { lists :=
      { alarm_list := (sys.lists.alarm_list.filter (fun a => decide (a.is_done = 0))).filter
          (fun a => decide (a.number ∉ sys.lists.removal_list.map (fun r => r.number)))
        thread_list := (check_thread_list_and_create_thread (sys.lists.thread_list.filter
          (fun t => decide (thread_has_active_alarm t.type
            (sys.lists.alarm_list.filter (fun a => decide (a.is_done = 0))) ≠ 0)))).1
        removal_list := [] }
    workers := sys.workers ++ (check_thread_list_and_create_thread (sys.lists.thread_list.filter
      (fun t => decide (thread_has_active_alarm t.type
        (sys.lists.alarm_list.filter (fun a => decide (a.is_done = 0))) ≠ 0)))).2
    now := sys.now }

/-- What every reachable state of the semaphores satisfies. -/
def rw_inv (s : rw_state) : Prop :=
  s.readCountAccess + s.lock_entered + s.lock_first + s.lock_leaving + s.release_entered +
      s.release_last + s.release_leaving = 1 ∧
  s.readCount = ((s.lock_first + s.lock_leaving + s.reading + s.release_entered : Nat) : Int) ∧
  (0 < s.lock_leaving + s.reading + s.release_entered + s.release_last →
    s.alarmListAccess + s.writing = 0) ∧
  (s.lock_leaving + s.reading + s.release_entered + s.release_last = 0 →
    s.alarmListAccess + s.writing = 1) ∧
  (0 < s.lock_first → s.readCount = 1) ∧
  (0 < s.release_last → s.readCount = 0)

/-- Readers that hold the read side of the lock: they found `readCount > 1` or
passed `sem_wait(&alarmListAccess)` in `lock`, and have not yet run `readCount--`
in `release`. -/
def readers_holding (s : rw_state) : Nat := s.lock_leaving + s.reading + s.release_entered

/-- The state with `k` readers inside their scan and nobody else at work. -/
def readers_inside (k : Nat) : rw_state :=
  { readCountAccess := 1, alarmListAccess := 0, readCount := k, lock_entered := 0,
    lock_first := 0, lock_leaving := 0, reading := k, release_entered := 0,
    release_last := 0, release_leaving := 0, writing := 0 }

/-- Sample data: an alarm not yet done, with the given number, type and text
(100 seconds, deadline 100). -/
def live_alarm (number type : Int) (message : String) : alarm_t :=
  { seconds := 100, time := 100, message := message, number := number, type := type,
    is_done := 0 }

/-- Sample data: the same alarm marked done. -/
def done_alarm (number type : Int) (message : String) : alarm_t :=
  { live_alarm number type message with is_done := 1 }

/-- Sample data: the `sscanf` results for the line
`<sec> Message(<type>, <num>) <text>`; the variables no pattern writes are shown
as zero. -/
def alarm_line (sec type num : Int) (text : List Char) : parsed_line :=
  { err_t1 := 4, err_t2 := 0, err_t3 := 0, t1_sec := sec, t1_type := type, t1_num := num,
    tempS := text, t2_type := 0, t3_num := 0 }

/-- Sample data: the `sscanf` results for the line `Create_Thread: MessageType(c)`. -/
def create_thread_line (c : Int) : parsed_line :=
  { err_t1 := 0, err_t2 := 1, err_t3 := 0, t1_sec := 0, t1_type := 0, t1_num := 0,
    tempS := [], t2_type := c, t3_num := 0 }

/-- Sample data: the `sscanf` results for the line `Cancel: Message(x)`. -/
def cancel_line (x : Int) : parsed_line :=
  { err_t1 := 0, err_t2 := 0, err_t3 := 1, t1_sec := 0, t1_type := 0, t1_num := 0,
    tempS := [], t2_type := 0, t3_num := x }

/-- A trace of the program: an alarm of type 5 is submitted and type 5 registered,
the thread is created, the alarm is cancelled and drained, the record is pruned,
a new alarm of type 5 is submitted and type 5 registered again, and a thread is
created, while the first display thread has not run in between. -/
def reregister_trace : List action :=
  [ .command (alarm_line 100 5 1 [Char.ofNat 97]),
    .command (create_thread_line 5),
    .coordinator,
    .command (cancel_line 1),
    .coordinator,
    .coordinator,
    .command (alarm_line 100 5 2 [Char.ofNat 98]),
    .command (create_thread_line 5),
    .coordinator ]

/-- Sample data: alarm 1 of type 5 is live, type 5 is registered and its thread
not yet created, and the cancellation of alarm 1 is queued. -/
def cancelled_alarm_state : State :=
  { alarm_list := [live_alarm 1 5 "a"]
    thread_list := [{ type := 5, is_created := 0 }]
    removal_list := [{ number := 1 }] }

/-! ## Lemmas on `add_to_alarm_list` -/

theorem add_to_alarm_list_mem (a x : alarm_t) :
    ∀ l : List alarm_t, x ∈ add_to_alarm_list a l → x = a ∨ x ∈ l := by
  intro l
  induction l with
  | nil => intro h; simpa [add_to_alarm_list] using h
  | cons n t ih =>
    intro h
    unfold add_to_alarm_list at h
    split_ifs at h with h1 h2
    · rcases List.mem_cons.mp h with rfl | h
      · exact Or.inl rfl
      · exact Or.inr h
    · rcases List.mem_cons.mp h with rfl | h
      · exact Or.inl rfl
      · exact Or.inr (List.mem_cons_of_mem _ h)
    · rcases List.mem_cons.mp h with rfl | h
      · exact Or.inr (List.mem_cons_self _ _)
      · rcases ih h with rfl | h
        · exact Or.inl rfl
        · exact Or.inr (List.mem_cons_of_mem _ h)

theorem add_to_alarm_list_self_mem (a : alarm_t) :
    ∀ l : List alarm_t, a ∈ add_to_alarm_list a l := by
  intro l
  induction l with
  | nil => simp [add_to_alarm_list]
  | cons n t ih =>
    unfold add_to_alarm_list
    split_ifs <;> simp [ih]

theorem add_to_alarm_list_ascending (a : alarm_t) :
    ∀ l : List alarm_t, ascending l → ascending (add_to_alarm_list a l) := by
  intro l
  induction l with
  | nil => intro _; simp [add_to_alarm_list, ascending]
  | cons n t ih =>
    intro h
    have hn : ∀ y ∈ t, n.number < y.number := (List.pairwise_cons.mp h).1
    have ht : ascending t := (List.pairwise_cons.mp h).2
    unfold add_to_alarm_list
    split_ifs with h1 h2
    · refine List.pairwise_cons.mpr ⟨?_, h⟩
      intro y hy
      rcases List.mem_cons.mp hy with rfl | hy
      · exact h1
      · have := hn y hy
        omega
    · refine List.pairwise_cons.mpr ⟨?_, ht⟩
      intro y hy
      have := hn y hy
      omega
    · refine List.pairwise_cons.mpr ⟨?_, ih ht⟩
      intro y hy
      rcases add_to_alarm_list_mem a y t hy with rfl | hy
      · omega
      · exact hn y hy

theorem add_to_alarm_list_filter_ne (a : alarm_t) :
    ∀ l : List alarm_t,
      (add_to_alarm_list a l).filter (fun x => decide (x.number ≠ a.number)) =
        l.filter (fun x => decide (x.number ≠ a.number)) := by
  intro l
  induction l with
  | nil => simp [add_to_alarm_list]
  | cons n t ih =>
    unfold add_to_alarm_list
    split_ifs with h1 h2
    · simp
    · simp [h2]
    · rw [List.filter_cons, List.filter_cons, ih]

theorem add_to_alarm_list_filter_eq (a : alarm_t) :
    ∀ l : List alarm_t, ascending l →
      (add_to_alarm_list a l).filter (fun x => decide (x.number = a.number)) = [a] := by
  intro l
  induction l with
  | nil => intro _; simp [add_to_alarm_list]
  | cons n t ih =>
    intro h
    have hn : ∀ y ∈ t, n.number < y.number := (List.pairwise_cons.mp h).1
    have ht : ascending t := (List.pairwise_cons.mp h).2
    unfold add_to_alarm_list
    split_ifs with h1 h2
    · have hnil : (n :: t).filter (fun x => decide (x.number = a.number)) = [] := by
        rw [List.filter_eq_nil_iff]
        intro y hy
        rcases List.mem_cons.mp hy with rfl | hy
        · simp; omega
        · have := hn y hy
          simp; omega
      rw [List.filter_cons, hnil]
      simp
    · have hnil : t.filter (fun x => decide (x.number = a.number)) = [] := by
        rw [List.filter_eq_nil_iff]
        intro y hy
        have := hn y hy
        simp; omega
      rw [List.filter_cons, hnil]
      simp
    · rw [List.filter_cons, ih ht]
      simp [h2]

/-- On an ascending list the nodes with number `i` after an insertion are the
new alarm when `i` is its number, and the old ones otherwise. -/
theorem add_to_alarm_list_lookup (a : alarm_t) (l : List alarm_t) (h : ascending l) (i : Int) :
    (add_to_alarm_list a l).filter (fun x => decide (x.number = i)) =
      if i = a.number then [a] else l.filter (fun x => decide (x.number = i)) := by
  split_ifs with hi
  · subst hi
    exact add_to_alarm_list_filter_eq a l h
  · have key : ∀ m : List alarm_t, m.filter (fun x => decide (x.number = i)) =
        (m.filter (fun x => decide (x.number ≠ a.number))).filter
          (fun x => decide (x.number = i)) := by
      intro m
      rw [List.filter_filter]
      apply List.filter_congr
      intro x _
      by_cases hx : x.number = i
      · simp [hx, hi]
      · simp [hx]
    rw [key (add_to_alarm_list a l), add_to_alarm_list_filter_ne, ← key l]

theorem submit_all_snoc (subs : List alarm_t) (a : alarm_t) :
    submit_all (subs ++ [a]) = add_to_alarm_list a (submit_all subs) := by
  simp [submit_all, List.foldl_append]

theorem submit_all_ascending : ∀ subs : List alarm_t, ascending (submit_all subs) := by
  intro subs
  induction subs using List.reverseRecOn with
  | nil => simp [submit_all, ascending]
  | append_singleton subs a ih =>
    rw [submit_all_snoc]
    exact add_to_alarm_list_ascending a _ ih

theorem ascending_distinct (l : List alarm_t) (h : ascending l) :
    l.Pairwise (fun x y => x.number ≠ y.number) :=
  List.Pairwise.imp (fun hxy => ne_of_lt hxy) h

theorem submit_all_mem : ∀ subs : List alarm_t, ∀ x ∈ submit_all subs, x ∈ subs := by
  intro subs
  induction subs using List.reverseRecOn with
  | nil => simp [submit_all]
  | append_singleton subs a ih =>
    intro x hx
    rw [submit_all_snoc] at hx
    rcases add_to_alarm_list_mem a x _ hx with rfl | hx
    · simp
    · exact List.mem_append_left _ (ih x hx)

theorem submit_all_lookup (i : Int) :
    ∀ (subs : List alarm_t) (last : alarm_t),
      (subs.filter (fun x => decide (x.number = i))).getLast? = some last →
        (submit_all subs).filter (fun x => decide (x.number = i)) = [last] := by
  intro subs
  induction subs using List.reverseRecOn with
  | nil => intro last h; simp at h
  | append_singleton subs a ih =>
    intro last h
    rw [submit_all_snoc, add_to_alarm_list_lookup a _ (submit_all_ascending subs) i]
    by_cases hi : i = a.number
    · subst hi
      simp [List.filter_append] at h
      simp [h]
    · have hi' : ¬ a.number = i := fun e => hi e.symm
      simp only [List.filter_append, List.filter_cons, hi', decide_False, List.filter_nil,
        List.append_nil] at h
      simp only [hi, if_false]
      exact ih last (by simpa using h)

theorem apply_op_ascending (l : List alarm_t) (h : ascending l) (op : store_op) :
    ascending (apply_op l op) := by
  cases op with
  | insert a => exact add_to_alarm_list_ascending a l h
  | remove n =>
    show ascending (remove_from_alarm_list n l)
    rw [remove_from_alarm_list_eq_filter]
    exact List.Pairwise.filter _ h

theorem add_to_alarm_list_length_absent (a : alarm_t) :
    ∀ l : List alarm_t, (∀ x ∈ l, x.number ≠ a.number) →
      (add_to_alarm_list a l).length = l.length + 1 := by
  intro l
  induction l with
  | nil => intro _; simp [add_to_alarm_list]
  | cons n t ih =>
    intro h
    have hn : n.number ≠ a.number := h n (List.mem_cons_self _ _)
    have ht : ∀ x ∈ t, x.number ≠ a.number := fun x hx => h x (List.mem_cons_of_mem _ hx)
    unfold add_to_alarm_list
    split_ifs with h1
    · simp
    · simp [ih ht]

theorem add_to_alarm_list_split_absent (a : alarm_t) :
    ∀ l : List alarm_t, ascending l → (∀ x ∈ l, x.number ≠ a.number) →
      ∃ pre post, l = pre ++ post ∧ add_to_alarm_list a l = pre ++ a :: post ∧
        (∀ x ∈ pre, x.number < a.number) ∧ (∀ x ∈ post, a.number < x.number) := by
  intro l
  induction l with
  | nil => intro _ _; exact ⟨[], [], by simp [add_to_alarm_list]⟩
  | cons n t ih =>
    intro hasc h
    have hn : n.number ≠ a.number := h n (List.mem_cons_self _ _)
    have ht : ∀ x ∈ t, x.number ≠ a.number := fun x hx => h x (List.mem_cons_of_mem _ hx)
    have hlt : ∀ y ∈ t, n.number < y.number := (List.pairwise_cons.mp hasc).1
    unfold add_to_alarm_list
    split_ifs with h1
    · refine ⟨[], n :: t, by simp, by simp, by simp, ?_⟩
      intro x hx
      rcases List.mem_cons.mp hx with rfl | hx
      · exact h1
      · have := hlt x hx
        omega
    · obtain ⟨pre, post, e1, e2, e3, e4⟩ := ih (List.pairwise_cons.mp hasc).2 ht
      refine ⟨n :: pre, post, by simp [e1], by simp [e2], ?_, e4⟩
      intro x hx
      rcases List.mem_cons.mp hx with rfl | hx
      · omega
      · exact e3 x hx

theorem add_to_alarm_list_split_present (a : alarm_t) :
    ∀ l : List alarm_t, ascending l → (∃ x ∈ l, x.number = a.number) →
      ∃ pre old post, l = pre ++ old :: post ∧ old.number = a.number ∧
        add_to_alarm_list a l = pre ++ a :: post := by
  intro l
  induction l with
  | nil => intro _ h; simp at h
  | cons n t ih =>
    intro hasc h
    have hlt : ∀ y ∈ t, n.number < y.number := (List.pairwise_cons.mp hasc).1
    unfold add_to_alarm_list
    split_ifs with h1 h2
    · exfalso
      obtain ⟨x, hx, hxa⟩ := h
      rcases List.mem_cons.mp hx with rfl | hx
      · omega
      · have := hlt x hx
        omega
    · exact ⟨[], n, t, by simp, h2, by simp⟩
    · have ht : ∃ x ∈ t, x.number = a.number := by
        obtain ⟨x, hx, hxa⟩ := h
        rcases List.mem_cons.mp hx with rfl | hx
        · exact absurd hxa h2
        · exact ⟨x, hx, hxa⟩
      obtain ⟨pre, old, post, e1, e2, e3⟩ := ih (List.pairwise_cons.mp hasc).2 ht
      exact ⟨n :: pre, old, post, by simp [e1], e2, by simp [e3]⟩

theorem add_to_alarm_list_tail (a : alarm_t) :
    ∀ l : List alarm_t, (∀ x ∈ l, x.number < a.number) → add_to_alarm_list a l = l ++ [a] := by
  intro l
  induction l with
  | nil => intro _; simp [add_to_alarm_list]
  | cons n t ih =>
    intro h
    have hn : n.number < a.number := h n (List.mem_cons_self _ _)
    have ht : ∀ x ∈ t, x.number < a.number := fun x hx => h x (List.mem_cons_of_mem _ hx)
    unfold add_to_alarm_list
    have h1 : ¬ n.number > a.number := by omega
    have h2 : ¬ n.number = a.number := by omega
    simp [h1, h2, ih ht]

theorem add_to_alarm_list_idem (a : alarm_t) :
    ∀ l : List alarm_t,
      add_to_alarm_list a (add_to_alarm_list a l) = add_to_alarm_list a l := by
  intro l
  induction l with
  | nil => simp [add_to_alarm_list]
  | cons n t ih =>
    by_cases h1 : n.number > a.number
    · simp [add_to_alarm_list, h1]
    · by_cases h2 : n.number = a.number
      · simp [add_to_alarm_list, h2]
      · simp [add_to_alarm_list, h1, h2, ih]

/-! ## Lemmas on the sweep, the prune, the launch and the drain -/

theorem ascending_eq_of_number_eq (l : List alarm_t) (h : ascending l) (x y : alarm_t)
    (hx : x ∈ l) (hy : y ∈ l) (hxy : x.number = y.number) : x = y := by
  by_contra hne
  have hsymm : Symmetric (fun u v : alarm_t => u.number ≠ v.number) :=
    fun _ _ huv e => huv e.symm
  exact (ascending_distinct l h).forall hsymm hx hy hne hxy

theorem remove_alarms_that_are_done_mem :
    ∀ (l : List alarm_t), ∀ x ∈ remove_alarms_that_are_done l, x ∈ l := by
  intro l
  induction l using remove_alarms_that_are_done.induct with
  | case1 l h =>
    intro x hx
    rw [remove_alarms_that_are_done] at hx
    split at hx
    · exact hx
    · rename_i n h'
      rw [h] at h'
      cases h'
  | case2 l next h hneg =>
    intro x hx
    rw [remove_alarms_that_are_done] at hx
    split at hx
    · exact hx
    · rename_i n h'
      rw [h] at h'
      cases h'
      simpa [hneg] using hx
  | case3 l next h hneg ih =>
    intro x hx
    rw [remove_alarms_that_are_done] at hx
    split at hx
    · exact hx
    · rename_i n h'
      rw [h] at h'
      cases h'
      simp only [hneg, if_false] at hx
      have := ih x hx
      rw [remove_from_alarm_list_eq_filter] at this
      exact List.mem_of_mem_filter this

theorem remove_alarms_that_are_done_eq_filter :
    ∀ (l : List alarm_t), ascending l → (∀ a ∈ l, 0 < a.number) →
      remove_alarms_that_are_done l = l.filter (fun a => decide (a.is_done = 0)) := by
  intro l
  induction l using remove_alarms_that_are_done.induct with
  | case1 l h =>
    intro _ _
    rw [remove_alarms_that_are_done]
    split
    · symm
      rw [List.filter_eq_self]
      intro a ha
      have := List.find?_eq_none.mp h a ha
      simpa using this
    · rename_i n h'
      rw [h] at h'
      cases h'
  | case2 l next h hneg =>
    intro _ hpos
    have := hpos next (List.mem_of_find?_eq_some h)
    omega
  | case3 l next h hneg ih =>
    intro hasc hpos
    have hmem : next ∈ l := List.mem_of_find?_eq_some h
    have hdone : next.is_done ≠ 0 := by simpa using List.find?_some h
    rw [remove_alarms_that_are_done]
    split
    · rename_i h'
      rw [h] at h'
      cases h'
    · rename_i n h'
      rw [h] at h'
      cases h'
      simp only [hneg, if_false]
      rw [ih, remove_from_alarm_list_eq_filter, List.filter_filter]
      · apply List.filter_congr
        intro x hx
        by_cases hxn : x.number = next.number
        · have : x = next := ascending_eq_of_number_eq l hasc x next hx hmem hxn
          subst this
          simp [hdone]
        · simp [hxn]
      · rw [remove_from_alarm_list_eq_filter]
        exact List.Pairwise.filter _ hasc
      · intro a ha
        rw [remove_from_alarm_list_eq_filter] at ha
        exact hpos a (List.mem_of_mem_filter ha)

theorem thread_has_active_alarm_ne_zero (c : Int) (al : List alarm_t) :
    thread_has_active_alarm c al ≠ 0 ↔ ∃ a ∈ al, a.type = c ∧ a.is_done = 0 := by
  simp only [thread_has_active_alarm, alarm_exists, if_true, zero_add, ne_eq,
    Nat.cast_eq_zero, List.countP_eq_zero, not_forall]
  constructor
  · rintro ⟨a, ha, h⟩
    exact ⟨a, ha, by simpa using h⟩
  · rintro ⟨a, ha, h⟩
    exact ⟨a, ha, by simpa using h⟩

theorem remove_from_thread_list_mem (c : Int) (x : thread_ds) :
    ∀ l : List thread_ds, x ∈ remove_from_thread_list c l → x ∈ l := by
  intro l
  induction l with
  | nil => simp [remove_from_thread_list]
  | cons n t ih =>
    intro h
    unfold remove_from_thread_list at h
    split_ifs at h with h1
    · exact List.mem_cons_of_mem _ h
    · rcases List.mem_cons.mp h with rfl | h
      · exact List.mem_cons_self _ _
      · exact List.mem_cons_of_mem _ (ih h)

theorem remove_from_thread_list_filter (c : Int) (p : thread_ds → Bool)
    (hp : ∀ t : thread_ds, t.type = c → p t = false) :
    ∀ l : List thread_ds, (remove_from_thread_list c l).filter p = l.filter p := by
  intro l
  induction l with
  | nil => simp [remove_from_thread_list]
  | cons n t ih =>
    unfold remove_from_thread_list
    split_ifs with h1
    · simp [hp n h1]
    · rw [List.filter_cons, List.filter_cons, ih]

theorem remove_threads_if_no_active_alarm_eq :
    ∀ s : State, (∀ t ∈ s.thread_list, 0 < t.type) →
      remove_threads_if_no_active_alarm s =
        { s with thread_list := (s.thread_list.filter
            (fun t => decide (thread_has_active_alarm t.type s.alarm_list ≠ 0))) } := by
  intro s
  induction s using remove_threads_if_no_active_alarm.induct with
  | case1 s h =>
    intro _
    rw [remove_threads_if_no_active_alarm]
    split
    · have hall : s.thread_list.filter
          (fun t => decide (thread_has_active_alarm t.type s.alarm_list ≠ 0)) = s.thread_list := by
        rw [List.filter_eq_self]
        intro a ha
        have := List.find?_eq_none.mp h a ha
        simpa using this
      rw [hall]
    · rename_i n h'
      rw [h] at h'
      cases h'
  | case2 s next h hneg =>
    intro hpos
    have := hpos next (List.mem_of_find?_eq_some h)
    omega
  | case3 s next h hneg ih =>
    intro hpos
    have hdead : thread_has_active_alarm next.type s.alarm_list = 0 := by
      simpa using List.find?_some h
    rw [remove_threads_if_no_active_alarm]
    split
    · rename_i h'
      rw [h] at h'
      cases h'
    · rename_i n h'
      rw [h] at h'
      cases h'
      simp only [hneg, if_false]
      rw [ih]
      · simp only
        rw [remove_from_thread_list_filter]
        intro t ht
        simp [ht, hdead]
      · intro t ht
        exact hpos t (remove_from_thread_list_mem _ t _ ht)

theorem check_thread_list_fst :
    ∀ l : List thread_ds, (check_thread_list_and_create_thread l).1 =
      l.map (fun t => if t.is_created = 0 then { t with is_created := 1 } else t) := by
  intro l
  induction l with
  | nil => simp [check_thread_list_and_create_thread]
  | cons n t ih =>
    unfold check_thread_list_and_create_thread
    by_cases h : n.is_created = 0 <;> simp [h, ih]

theorem check_thread_list_snd :
    ∀ l : List thread_ds, (check_thread_list_and_create_thread l).2 =
      (l.filter (fun t => decide (t.is_created = 0))).map (fun t => t.type) := by
  intro l
  induction l with
  | nil => simp [check_thread_list_and_create_thread]
  | cons n t ih =>
    unfold check_thread_list_and_create_thread
    by_cases h : n.is_created = 0 <;> simp [h, ih]

theorem check_thread_list_types (l : List thread_ds) :
    (check_thread_list_and_create_thread l).1.map (fun t => t.type) =
      l.map (fun t => t.type) := by
  rw [check_thread_list_fst, List.map_map]
  apply List.map_congr_left
  intro t _
  by_cases h : t.is_created = 0 <;> simp [h]

theorem drain_fold_eq_filter :
    ∀ (q : List removal_ds) (l : List alarm_t),
      q.foldl (fun l next => remove_from_alarm_list next.number l) l =
        l.filter (fun a => decide (a.number ∉ q.map (fun r => r.number))) := by
  intro q
  induction q with
  | nil => intro l; simp
  | cons r q ih =>
    intro l
    rw [List.foldl_cons, ih, remove_from_alarm_list_eq_filter, List.filter_filter]
    apply List.filter_congr
    intro x _
    by_cases hx : x.number = r.number
    · simp [hx]
    · simp [hx]

theorem add_to_removal_list_eq (n : Int) :
    ∀ q : List removal_ds, add_to_removal_list n q = q ++ [{ number := n }] := by
  intro q
  induction q with
  | nil => simp [add_to_removal_list]
  | cons r q ih => simp [add_to_removal_list, ih]

theorem thread_exists_eq_zero (c : Int) (tl : List thread_ds) :
    thread_exists c tl = 0 ↔ ∀ t ∈ tl, t.type ≠ c := by
  simp [thread_exists, List.countP_eq_zero]

/-! ## Lemmas on the command loop and the transition system -/

theorem remove_from_thread_list_sublist (c : Int) :
    ∀ l : List thread_ds, (remove_from_thread_list c l).Sublist l := by
  intro l
  induction l with
  | nil => simp [remove_from_thread_list]
  | cons n t ih =>
    unfold remove_from_thread_list
    split_ifs with h1
    · exact List.sublist_cons_self n t
    · exact ih.cons₂ n

theorem remove_threads_if_no_active_alarm_frame :
    ∀ s : State, (remove_threads_if_no_active_alarm s).thread_list.Sublist s.thread_list ∧
      (remove_threads_if_no_active_alarm s).alarm_list = s.alarm_list ∧
      (remove_threads_if_no_active_alarm s).removal_list = s.removal_list := by
  intro s
  induction s using remove_threads_if_no_active_alarm.induct with
  | case1 s h =>
    rw [remove_threads_if_no_active_alarm]
    split
    · exact ⟨List.Sublist.refl _, rfl, rfl⟩
    · rename_i n h'
      rw [h] at h'
      cases h'
  | case2 s next h hneg =>
    rw [remove_threads_if_no_active_alarm]
    split
    · exact ⟨List.Sublist.refl _, rfl, rfl⟩
    · rename_i n h'
      rw [h] at h'
      cases h'
      simp [hneg]
  | case3 s next h hneg ih =>
    rw [remove_threads_if_no_active_alarm]
    split
    · exact ⟨List.Sublist.refl _, rfl, rfl⟩
    · rename_i n h'
      rw [h] at h'
      cases h'
      simp only [hneg, if_false]
      exact ⟨ih.1.trans (remove_from_thread_list_sublist _ _), ih.2.1, ih.2.2⟩

theorem state_at_launch_live (s : State) (hpos : ∀ t ∈ s.thread_list, 0 < t.type) :
    ∀ t ∈ (state_at_launch s).thread_list,
      ∃ a ∈ (state_at_launch s).alarm_list, a.type = t.type ∧ a.is_done = 0 := by
  intro t ht
  have hal : (state_at_launch s).alarm_list = remove_alarms_that_are_done s.alarm_list :=
    (remove_threads_if_no_active_alarm_frame _).2.1
  rw [hal]
  unfold state_at_launch at ht
  rw [remove_threads_if_no_active_alarm_eq
    { s with alarm_list := remove_alarms_that_are_done s.alarm_list } hpos] at ht
  have hlive := (List.mem_filter.mp ht).2
  simp only [decide_eq_true_eq] at hlive
  exact (thread_has_active_alarm_ne_zero _ _).mp hlive

theorem add_to_thread_list_eq (c : Int) :
    ∀ l : List thread_ds, add_to_thread_list c l = l ++ [{ type := c, is_created := 0 }] := by
  intro l
  induction l with
  | nil => simp [add_to_thread_list]
  | cons t l ih => simp [add_to_thread_list, ih]

theorem remove_request_exists_fold (n : Int) :
    ∀ (q : List removal_ds) (acc : Int),
      q.foldl (fun does_exist s => if s.number = n then 1 else does_exist) acc =
        if ∃ r ∈ q, r.number = n then 1 else acc := by
  intro q
  induction q with
  | nil => intro acc; simp
  | cons r q ih =>
    intro acc
    rw [List.foldl_cons, ih]
    by_cases hr : r.number = n
    · simp [hr]
    · by_cases hq : ∃ x ∈ q, x.number = n
      · have : ∃ x ∈ r :: q, x.number = n := by
          obtain ⟨x, hx, hxn⟩ := hq
          exact ⟨x, List.mem_cons_of_mem _ hx, hxn⟩
        simp only [hq, this, if_true]
      · have : ¬ ∃ x ∈ r :: q, x.number = n := by
          rintro ⟨x, hx, hxn⟩
          rcases List.mem_cons.mp hx with rfl | hx
          · exact hr hxn
          · exact hq ⟨x, hx, hxn⟩
        simp only [hq, this, if_false, hr]

theorem remove_request_exists_eq_zero (n : Int) (q : List removal_ds) :
    remove_request_exists n q = 0 ↔ ∀ r ∈ q, r.number ≠ n := by
  unfold remove_request_exists
  rw [remove_request_exists_fold]
  by_cases hq : ∃ r ∈ q, r.number = n
  · simp only [hq, if_true, one_ne_zero, false_iff]
    obtain ⟨r, hr, hrn⟩ := hq
    exact fun h => h r hr hrn
  · simp only [hq, if_false, true_iff]
    intro r hr hrn
    exact hq ⟨r, hr, hrn⟩

theorem alarm_exists_type_ne_zero (c : Int) (al : List alarm_t) :
    alarm_exists c 0 al ≠ 0 ↔ ∃ a ∈ al, a.type = c ∧ a.is_done = 0 := by
  have := thread_has_active_alarm_ne_zero c al
  simpa [thread_has_active_alarm] using this

theorem alarm_exists_number_ne_zero (x : Int) (al : List alarm_t) :
    alarm_exists x 1 al ≠ 0 ↔ ∃ a ∈ al, a.number = x ∧ a.is_done = 0 := by
  simp only [alarm_exists, one_ne_zero, if_false, if_true, ne_eq, Nat.cast_eq_zero,
    List.countP_eq_zero, not_forall]
  constructor
  · rintro ⟨a, ha, h⟩
    exact ⟨a, ha, by simpa using h⟩
  · rintro ⟨a, ha, h⟩
    exact ⟨a, ha, by simpa using h⟩

/-- The thread list after one line: untouched, or one new record at the tail for
a type that had none. -/
theorem main_iter_thread_list (now : Int) (p : parsed_line) (s : State) :
    (main_iter now p s).1.thread_list = s.thread_list ∨
    ((main_iter now p s).1.thread_list =
        s.thread_list ++ [{ type := p.t2_type, is_created := 0 }] ∧
      thread_exists p.t2_type s.thread_list = 0 ∧
      (main_iter now p s).2 = main_outcome.thread_requested) := by
  unfold main_iter
  split_ifs <;> first
    | exact Or.inl rfl
    | (right; exact ⟨add_to_thread_list_eq _ _, by assumption, rfl⟩)

/-- The removal list after one line: untouched, or one new node at the tail for
a number that was not queued. -/
theorem main_iter_removal_list (now : Int) (p : parsed_line) (s : State) :
    (main_iter now p s).1.removal_list = s.removal_list ∨
    ((main_iter now p s).1.removal_list = s.removal_list ++ [{ number := p.t3_num }] ∧
      remove_request_exists p.t3_num s.removal_list = 0) := by
  unfold main_iter
  split_ifs <;> first
    | exact Or.inl rfl
    | (right; exact ⟨add_to_removal_list_eq _ _, by assumption⟩)

theorem run_snoc (t0 : Int) (acts : List action) (a : action) :
    run t0 (acts ++ [a]) = apply_action (run t0 acts) a := by
  simp [run, List.foldl_append]

theorem alarm_thread_iter_thread_types (s : State) :
    ((alarm_thread_iter s).1.thread_list.map (fun t => t.type)).Sublist
      (s.thread_list.map (fun t => t.type)) := by
  simp only [alarm_thread_iter, remove_alarms_in_removal_list]
  rw [check_thread_list_types]
  exact (remove_threads_if_no_active_alarm_frame
    { s with alarm_list := remove_alarms_that_are_done s.alarm_list }).1.map _

theorem alarm_thread_iter_removal_list (s : State) :
    (alarm_thread_iter s).1.removal_list = [] := rfl

/-- A display thread iteration leaves the thread list and the removal list
alone and starts no thread. -/
theorem apply_action_worker (sys : System) (i : Nat) :
    (apply_action sys (action.worker i)).lists.thread_list = sys.lists.thread_list ∧
    (apply_action sys (action.worker i)).lists.removal_list = sys.lists.removal_list ∧
    (apply_action sys (action.worker i)).workers.Sublist sys.workers := by
  simp only [apply_action]
  split
  · exact ⟨rfl, rfl, List.Sublist.refl _⟩
  · refine ⟨rfl, rfl, ?_⟩
    simp only
    split_ifs
    · exact List.eraseIdx_sublist _ _
    · exact List.Sublist.refl _

/-- The registered types after one step: a sublist of those before, or those
before and one new type at the tail. -/
theorem apply_action_thread_types (sys : System) (a : action) :
    ((apply_action sys a).lists.thread_list.map (fun t => t.type)).Sublist
        (sys.lists.thread_list.map (fun t => t.type)) ∨
    ∃ c, c ∉ sys.lists.thread_list.map (fun t => t.type) ∧
      (apply_action sys a).lists.thread_list.map (fun t => t.type) =
        sys.lists.thread_list.map (fun t => t.type) ++ [c] := by
  cases a with
  | command p =>
    rcases main_iter_thread_list sys.now p sys.lists with h | ⟨h, hex, _⟩
    · left
      show ((main_iter sys.now p sys.lists).1.thread_list.map _).Sublist _
      rw [h]
    · right
      refine ⟨p.t2_type, ?_, ?_⟩
      · intro hmem
        obtain ⟨t, ht, htc⟩ := List.mem_map.mp hmem
        exact (thread_exists_eq_zero _ _).mp hex t ht htc
      · show (main_iter sys.now p sys.lists).1.thread_list.map _ = _
        rw [h]
        simp
  | coordinator => exact Or.inl (alarm_thread_iter_thread_types sys.lists)
  | worker i =>
    left
    rw [(apply_action_worker sys i).1]
  | tick d => exact Or.inl (List.Sublist.refl _)

/-- The queued numbers after one step: those before, none, or those before and
one new number at the tail. -/
theorem apply_action_removal_numbers (sys : System) (a : action) :
    (apply_action sys a).lists.removal_list = sys.lists.removal_list ∨
    (apply_action sys a).lists.removal_list = [] ∨
    ∃ x, x ∉ sys.lists.removal_list.map (fun r => r.number) ∧
      (apply_action sys a).lists.removal_list = sys.lists.removal_list ++ [{ number := x }] := by
  cases a with
  | command p =>
    rcases main_iter_removal_list sys.now p sys.lists with h | ⟨h, hex⟩
    · exact Or.inl h
    · right; right
      refine ⟨p.t3_num, ?_, h⟩
      intro hmem
      obtain ⟨r, hr, hrx⟩ := List.mem_map.mp hmem
      exact (remove_request_exists_eq_zero _ _).mp hex r hr hrx
  | coordinator => exact Or.inr (Or.inl rfl)
  | worker i => exact Or.inl (apply_action_worker sys i).2.1
  | tick d => exact Or.inl rfl

theorem run_thread_types_nodup (t0 : Int) :
    ∀ acts : List action, ((run t0 acts).lists.thread_list.map (fun t => t.type)).Nodup := by
  intro acts
  induction acts using List.reverseRecOn with
  | nil => simp [run, initial]
  | append_singleton acts a ih =>
    rw [run_snoc]
    rcases apply_action_thread_types (run t0 acts) a with h | ⟨c, hc, h⟩
    · exact ih.sublist h
    · rw [h]
      exact List.Nodup.append ih (List.nodup_singleton c) (by simpa using hc)

theorem run_removal_numbers_nodup (t0 : Int) :
    ∀ acts : List action,
      ((run t0 acts).lists.removal_list.map (fun r => r.number)).Nodup := by
  intro acts
  induction acts using List.reverseRecOn with
  | nil => simp [run, initial]
  | append_singleton acts a ih =>
    rw [run_snoc]
    rcases apply_action_removal_numbers (run t0 acts) a with h | h | ⟨x, hx, h⟩
    · rw [h]; exact ih
    · rw [h]; simp
    · rw [h, List.map_append]
      exact List.Nodup.append ih (List.nodup_singleton x) (by simpa using hx)

theorem filter_type_length_eq_count (c : Int) :
    ∀ l : List thread_ds,
      (l.filter (fun t => decide (t.type = c))).length = (l.map (fun t => t.type)).count c := by
  intro l
  induction l with
  | nil => simp
  | cons t l ih =>
    by_cases h : t.type = c
    · simp [h, ih]
    · have hne : c ≠ t.type := fun e => h e.symm
      simp [h, ih, List.count_cons_of_ne hne]

/-- A `Create_Thread` line with a positive type goes through the validation and
reaches the block that asks for a thread. -/
theorem main_iter_create_thread (now : Int) (p : parsed_line) (s : State) (c : Int)
    (hline : is_create_thread_line p c) (hc : 0 < c) :
    main_iter now p s =
      if alarm_exists c 0 s.alarm_list ≠ 0 then
        if thread_exists c s.thread_list = 0 then
          ({ s with thread_list := s.thread_list ++ [{ type := c, is_created := 0 }] },
            main_outcome.thread_requested)
        else (s, main_outcome.thread_duplicate)
      else (s, main_outcome.thread_no_alarm) := by
  obtain ⟨h1, h2, h3⟩ := hline
  subst h3
  have e3 : ¬ p.err_t1 = 3 := by omega
  have e4 : ¬ p.err_t1 = 4 := by omega
  have hv : validation_continue p = false := by
    simp only [validation_continue, e3, if_false, h2, if_true, decide_eq_false_iff_not]
    omega
  have h0 : ¬ (p.err_t1 < 4 ∧ p.err_t2 < 1 ∧ p.err_t3 < 1) := by
    rintro ⟨_, h, _⟩
    omega
  unfold main_iter
  rw [if_neg h0]
  simp [hv, e4, h2, add_to_thread_list_eq]

/-- A `Cancel` line with a positive number goes through the validation and
reaches the block that queues a cancellation. -/
theorem main_iter_cancel (now : Int) (p : parsed_line) (s : State) (x : Int)
    (hline : is_cancel_line p x) (hx : 0 < x) :
    main_iter now p s =
      if alarm_exists x 1 s.alarm_list ≠ 0 then
        if remove_request_exists x s.removal_list = 0 then
          ({ s with removal_list := s.removal_list ++ [{ number := x }] },
            main_outcome.cancel_queued)
        else (s, main_outcome.cancel_duplicate)
      else (s, main_outcome.cancel_no_alarm) := by
  obtain ⟨h1, h2, h3, h4⟩ := hline
  subst h4
  have e3 : ¬ p.err_t1 = 3 := by omega
  have e4 : ¬ p.err_t1 = 4 := by omega
  have e2 : ¬ p.err_t2 = 1 := by omega
  have hv : validation_continue p = false := by
    simp only [validation_continue, e3, if_false, e2, h3, if_true, decide_eq_false_iff_not]
    omega
  have h0 : ¬ (p.err_t1 < 4 ∧ p.err_t2 < 1 ∧ p.err_t3 < 1) := by
    rintro ⟨_, _, h⟩
    omega
  unfold main_iter
  rw [if_neg h0]
  simp [hv, e4, e2, h3, add_to_removal_list_eq]

theorem pending_append (c c0 : Int) (l : List thread_ds) :
    pending c (l ++ [{ type := c0, is_created := 0 }]) =
      pending c l + if c0 = c then 1 else 0 := by
  unfold pending
  rw [List.filter_append, List.length_append]
  by_cases h : c0 = c <;> simp [h]

theorem pending_le_of_sublist (c : Int) (l l' : List thread_ds) (h : l'.Sublist l) :
    pending c l' ≤ pending c l :=
  (h.filter _).length_le

theorem pending_eq_zero_of_no_record (c : Int) (l : List thread_ds)
    (h : ∀ t ∈ l, t.type ≠ c) : pending c l = 0 := by
  unfold pending
  rw [List.length_eq_zero, List.filter_eq_nil_iff]
  intro t ht
  simp [h t ht]

theorem check_thread_list_pending (c : Int) (l : List thread_ds) :
    pending c (check_thread_list_and_create_thread l).1 = 0 := by
  unfold pending
  rw [List.length_eq_zero, List.filter_eq_nil_iff, check_thread_list_fst]
  intro t ht
  obtain ⟨u, _, rfl⟩ := List.mem_map.mp ht
  by_cases hu : u.is_created = 0 <;> simp [hu]

theorem check_thread_list_count (c : Int) :
    ∀ l : List thread_ds,
      (check_thread_list_and_create_thread l).2.count c = pending c l := by
  intro l
  rw [check_thread_list_snd]
  unfold pending
  induction l with
  | nil => simp
  | cons t l ih =>
    by_cases h0 : t.is_created = 0
    · by_cases hc : t.type = c
      · simp [h0, hc]
        simpa using ih
      · have hne : c ≠ t.type := fun e => hc e.symm
        simp [h0, hc, List.count_cons_of_ne hne]
        simpa using ih
    · simp [h0]
      simpa using ih

/-- The quantity a step without a stale registration keeps at most one: the
running threads of type `c` and the records of type `c` still waiting for their
thread. -/
theorem apply_action_workers_pending (sys : System) (a : action) (c : Int)
    (hinv : sys.workers.count c + pending c sys.lists.thread_list ≤ 1)
    (ha : no_stale_register sys a = true) :
    (apply_action sys a).workers.count c + pending c (apply_action sys a).lists.thread_list
      ≤ 1 := by
  cases a with
  | command p =>
    show sys.workers.count c + pending c (main_iter sys.now p sys.lists).1.thread_list ≤ 1
    rcases main_iter_thread_list sys.now p sys.lists with h | ⟨h, hex, hout⟩
    · rw [h]; exact hinv
    · rw [h, pending_append]
      by_cases hc : p.t2_type = c
      · subst hc
        have hw : p.t2_type ∉ sys.workers := by
          simp only [no_stale_register, decide_eq_true_eq] at ha
          exact ha hout
        have h1 : sys.workers.count p.t2_type = 0 := List.count_eq_zero_of_not_mem hw
        have h2 : pending p.t2_type sys.lists.thread_list = 0 :=
          pending_eq_zero_of_no_record _ _ ((thread_exists_eq_zero _ _).mp hex)
        simp [h1, h2]
      · simp only [hc, if_false, add_zero]
        exact hinv
  | coordinator =>
    show (sys.workers ++ (alarm_thread_iter sys.lists).2).count c +
      pending c (alarm_thread_iter sys.lists).1.thread_list ≤ 1
    have e1 : (alarm_thread_iter sys.lists).2 =
        (check_thread_list_and_create_thread (state_at_launch sys.lists).thread_list).2 := rfl
    have e2 : (alarm_thread_iter sys.lists).1.thread_list =
        (check_thread_list_and_create_thread (state_at_launch sys.lists).thread_list).1 := rfl
    rw [e1, e2, List.count_append, check_thread_list_count, check_thread_list_pending]
    have hsub : (state_at_launch sys.lists).thread_list.Sublist sys.lists.thread_list :=
      (remove_threads_if_no_active_alarm_frame _).1
    have := pending_le_of_sublist c _ _ hsub
    omega
  | worker i =>
    obtain ⟨h1, _, h3⟩ := apply_action_worker sys i
    rw [h1]
    have := h3.count_le c
    omega
  | tick d => exact hinv

theorem foldl_workers_pending (c : Int) :
    ∀ (acts : List action) (sys : System),
      sys.workers.count c + pending c sys.lists.thread_list ≤ 1 →
      all_no_stale_register sys acts = true →
      (acts.foldl apply_action sys).workers.count c +
        pending c (acts.foldl apply_action sys).lists.thread_list ≤ 1 := by
  intro acts
  induction acts with
  | nil => intro sys h _; exact h
  | cons a rest ih =>
    intro sys h hall
    simp only [all_no_stale_register, Bool.and_eq_true] at hall
    rw [List.foldl_cons]
    exact ih _ (apply_action_workers_pending sys a c h hall.1) hall.2

/-- On an alarm list with strictly ascending positive numbers and a thread list
with positive types the coordinator step is the filtered one. -/
theorem apply_action_coordinator_eq (sys : System) (hasc : ascending sys.lists.alarm_list)
    (hposa : ∀ a ∈ sys.lists.alarm_list, 0 < a.number)
    (hpost : ∀ t ∈ sys.lists.thread_list, 0 < t.type) :
    apply_action sys action.coordinator = coordinator_filtered sys := by
  show ({ sys with
    lists := (alarm_thread_iter sys.lists).1
    workers := sys.workers ++ (alarm_thread_iter sys.lists).2 } : System) = _
  simp only [alarm_thread_iter, remove_alarms_in_removal_list]
  rw [remove_alarms_that_are_done_eq_filter sys.lists.alarm_list hasc hposa]
  rw [remove_threads_if_no_active_alarm_eq
    { alarm_list := sys.lists.alarm_list.filter (fun a => decide (a.is_done = 0)),
      thread_list := sys.lists.thread_list, removal_list := sys.lists.removal_list } hpost]
  simp only [drain_fold_eq_filter]
  rfl

theorem to_int_of_range (x : Int) (h1 : -2 ^ 31 ≤ x) (h2 : x < 2 ^ 31) : to_int x = x := by
  unfold to_int
  rw [Int.emod_eq_of_lt (by omega) (by omega)]
  omega

theorem display_scan_fst (c now : Int) :
    ∀ l : List alarm_t,
      (∀ a ∈ l, a.type = c → a.is_done = 0 → -2 ^ 31 ≤ a.time - now ∧ a.time - now < 2 ^ 31) →
      (display_scan c now l).1 =
        l.map (fun a =>
          if a.type = c ∧ a.is_done = 0 ∧ a.time < now then { a with is_done := 1 } else a) := by
  intro l
  induction l with
  | nil => intro _; simp [display_scan]
  | cons a l ih =>
    intro h
    have ih' := ih (fun x hx => h x (List.mem_cons_of_mem _ hx))
    unfold display_scan
    by_cases hm : a.type = c ∧ a.is_done = 0
    · obtain ⟨lo, hi⟩ := h a (List.mem_cons_self _ _) hm.1 hm.2
      simp only [hm, and_self, if_true, to_int_of_range _ lo hi, List.map_cons, true_and]
      by_cases ht : a.time < now
      · have : ¬ a.time - now ≥ 0 := by omega
        simp only [this, if_false, ht, if_true, ih']
      · have : a.time - now ≥ 0 := by omega
        simp only [this, if_true, ht, if_false, ih']
    · have hm' : ¬ (a.type = c ∧ a.is_done = 0 ∧ a.time < now) := fun h3 => hm ⟨h3.1, h3.2.1⟩
      simp only [hm, if_false, List.map_cons, hm', ih']

theorem display_scan_snd (c now : Int) :
    ∀ l : List alarm_t,
      (∀ a ∈ l, a.type = c → a.is_done = 0 → -2 ^ 31 ≤ a.time - now ∧ a.time - now < 2 ^ 31) →
      (display_scan c now l).2 =
        (l.filter (fun a => decide (a.type = c ∧ a.is_done = 0 ∧ now ≤ a.time))).map
          (fun a => (a, a.time - now)) := by
  intro l
  induction l with
  | nil => intro _; simp [display_scan]
  | cons a l ih =>
    intro h
    have ih' := ih (fun x hx => h x (List.mem_cons_of_mem _ hx))
    unfold display_scan
    by_cases hm : a.type = c ∧ a.is_done = 0
    · obtain ⟨lo, hi⟩ := h a (List.mem_cons_self _ _) hm.1 hm.2
      simp only [hm, and_self, if_true, to_int_of_range _ lo hi]
      by_cases ht : a.time < now
      · have h1 : ¬ a.time - now ≥ 0 := by omega
        have h2 : ¬ now ≤ a.time := by omega
        simp [h1, h2, hm, ih']
      · have h1 : a.time - now ≥ 0 := by omega
        have h2 : now ≤ a.time := by omega
        simp [h1, h2, hm, ih']
    · have hm' : ¬ (a.type = c ∧ a.is_done = 0 ∧ now ≤ a.time) := fun h3 => hm ⟨h3.1, h3.2.1⟩
      simp only [hm, if_false, ih']
      rw [List.filter_cons_of_neg (by simpa using hm')]

theorem strncpy_of_long (body rest : List Char) (n : Nat) (hbody : ∀ ch ∈ body, ch ≠ NUL)
    (hrest : ∀ ch, rest.head? = some ch → ch = NUL)
    (hlen : n ≤ body.length) : strncpy (body ++ rest) n = body.take n := by
  have htw : (body ++ rest).takeWhile (fun ch => decide (ch ≠ NUL)) = body := by
    rw [List.takeWhile_append_of_pos (by simpa using hbody)]
    cases rest with
    | nil => simp
    | cons r rest =>
      have := hrest r rfl
      simp [List.takeWhile_cons, this]
  unfold strncpy
  rw [htw, List.length_take, Nat.min_eq_left hlen, Nat.sub_self]
  simp

theorem strncpy_of_short (body : List Char) (n : Nat) (hbody : ∀ ch ∈ body, ch ≠ NUL)
    (hlen : body.length < n) :
    strncpy (body ++ [NUL]) n = body ++ List.replicate (n - body.length) NUL := by
  have htw : (body ++ [NUL]).takeWhile (fun ch => decide (ch ≠ NUL)) = body := by
    rw [List.takeWhile_append_of_pos (by simpa using hbody)]
    simp [List.takeWhile_cons]
  unfold strncpy
  rw [htw, List.take_of_length_le (by omega)]

/-- A text of at most 127 characters is stored with its terminator. -/
theorem new_alarm_message_short (now : Int) (p : parsed_line)
    (htext : ∀ ch ∈ p.tempS, ch ≠ NUL) (hlen : p.tempS.length < 128) :
    (new_alarm now p).message.data =
      p.tempS ++ List.replicate (128 - p.tempS.length) NUL := by
  have h1 := strncpy_of_short p.tempS 128 htext hlen
  have h2 : strncpy (p.tempS ++ List.replicate (128 - p.tempS.length) NUL) 128 =
      p.tempS ++ List.replicate (128 - p.tempS.length) NUL := by
    have hrep : List.replicate (128 - p.tempS.length) NUL =
        NUL :: List.replicate (128 - p.tempS.length - 1) NUL := by
      have : 128 - p.tempS.length = (128 - p.tempS.length - 1) + 1 := by omega
      conv_lhs => rw [this, List.replicate_succ]
    have htw : (p.tempS ++ List.replicate (128 - p.tempS.length) NUL).takeWhile
        (fun ch => decide (ch ≠ NUL)) = p.tempS := by
      rw [List.takeWhile_append_of_pos (by simpa using htext), hrep]
      simp [List.takeWhile_cons]
    unfold strncpy
    rw [htw, List.take_of_length_le (by omega)]
  simp only [new_alarm, h1, h2]

/-- A text of 128 or more characters is stored as its first 128 characters, with
no terminator. -/
theorem new_alarm_message_long (now : Int) (p : parsed_line)
    (htext : ∀ ch ∈ p.tempS, ch ≠ NUL) (hlen : 128 ≤ p.tempS.length) :
    (new_alarm now p).message.data = p.tempS.take 128 := by
  have h1 := strncpy_of_long p.tempS [NUL] 128 htext (by simp) hlen
  have h2 : strncpy (p.tempS.take 128) 128 = p.tempS.take 128 := by
    have := strncpy_of_long (p.tempS.take 128) [] 128
      (fun ch hch => htext ch (List.mem_of_mem_take hch)) (by simp)
      (by rw [List.length_take]; omega)
    rw [List.append_nil] at this
    rw [this, List.take_take]
    simp
  simp only [new_alarm, h1, h2]

/-- A `Create_Thread` line with a type that is not positive is rejected by the
validation block. -/
theorem main_iter_create_thread_rejected (now : Int) (p : parsed_line) (s : State) (c : Int)
    (hline : is_create_thread_line p c) (hc : c ≤ 0) :
    main_iter now p s = (s, main_outcome.bad_value) := by
  obtain ⟨h1, h2, h3⟩ := hline
  subst h3
  have e3 : ¬ p.err_t1 = 3 := by omega
  have hv : validation_continue p = true := by
    simp only [validation_continue, e3, if_false, h2, if_true, decide_eq_true_eq]
    exact hc
  have h0 : ¬ (p.err_t1 < 4 ∧ p.err_t2 < 1 ∧ p.err_t3 < 1) := by
    rintro ⟨_, h, _⟩
    omega
  unfold main_iter
  rw [if_neg h0]
  simp [hv]

/-- A `Cancel` line with a number that is not positive is rejected by the
validation block. -/
theorem main_iter_cancel_rejected (now : Int) (p : parsed_line) (s : State) (x : Int)
    (hline : is_cancel_line p x) (hx : x ≤ 0) :
    main_iter now p s = (s, main_outcome.bad_value) := by
  obtain ⟨h1, h2, h3, h4⟩ := hline
  subst h4
  have e3 : ¬ p.err_t1 = 3 := by omega
  have e2 : ¬ p.err_t2 = 1 := by omega
  have hv : validation_continue p = true := by
    simp only [validation_continue, e3, if_false, e2, h3, if_true, decide_eq_true_eq]
    exact hx
  have h0 : ¬ (p.err_t1 < 4 ∧ p.err_t2 < 1 ∧ p.err_t3 < 1) := by
    rintro ⟨_, _, h⟩
    omega
  unfold main_iter
  rw [if_neg h0]
  simp [hv]

/-- A line of the first form with all four fields converted is inserted whatever
the sign of its fields: the validation block tests `err_t1 == 3`. -/
theorem main_iter_alarm_line (now : Int) (p : parsed_line) (s : State)
    (hline : is_alarm_line p) :
    main_iter now p s =
      ({ s with alarm_list := add_to_alarm_list (new_alarm now p) s.alarm_list },
        main_outcome.alarm_inserted) := by
  obtain ⟨h1, h2, h3⟩ := hline
  have e3 : ¬ p.err_t1 = 3 := by omega
  have e2 : ¬ p.err_t2 = 1 := by omega
  have e1 : ¬ p.err_t3 = 1 := by omega
  have hv : validation_continue p = false := by
    simp only [validation_continue, e3, e2, e1, if_false]
  have h0 : ¬ (p.err_t1 < 4 ∧ p.err_t2 < 1 ∧ p.err_t3 < 1) := by
    rintro ⟨h, _, _⟩
    omega
  unfold main_iter
  rw [if_neg h0]
  simp [hv, h1]

/-! ## Lemmas on the order of calls -/

theorem add_to_alarm_list_comm (a b : alarm_t) (hab : a.number ≠ b.number) :
    ∀ l : List alarm_t,
      add_to_alarm_list b (add_to_alarm_list a l) =
        add_to_alarm_list a (add_to_alarm_list b l) := by
  intro l
  induction l with
  | nil =>
    rcases lt_or_gt_of_ne hab with h | h
    · have h1 : ¬ a.number > b.number := by omega
      have h2 : ¬ a.number = b.number := by omega
      have h3 : b.number > a.number := h
      simp [add_to_alarm_list, h1, h2, h3]
    · have h1 : a.number > b.number := h
      have h2 : ¬ b.number > a.number := by omega
      have h3 : ¬ b.number = a.number := by omega
      simp [add_to_alarm_list, h1, h2, h3]
  | cons n t ih =>
    rcases lt_trichotomy n.number a.number with hna | hna | hna <;>
      rcases lt_trichotomy n.number b.number with hnb | hnb | hnb
    · have e1 : ¬ n.number > a.number := by omega
      have e2 : ¬ n.number = a.number := by omega
      have e3 : ¬ n.number > b.number := by omega
      have e4 : ¬ n.number = b.number := by omega
      simp [add_to_alarm_list, e1, e2, e3, e4, ih]
    · have e1 : ¬ n.number > a.number := by omega
      have e2 : ¬ n.number = a.number := by omega
      have e3 : ¬ n.number > b.number := by omega
      have e5 : ¬ b.number > a.number := by omega
      have e6 : ¬ b.number = a.number := by omega
      simp [add_to_alarm_list, e1, e2, e3, hnb, e5, e6]
    · have e1 : ¬ n.number > a.number := by omega
      have e2 : ¬ n.number = a.number := by omega
      have e3 : n.number > b.number := hnb
      have e5 : ¬ b.number > a.number := by omega
      have e6 : ¬ b.number = a.number := by omega
      simp [add_to_alarm_list, e1, e2, e3, e5, e6]
    · have e1 : ¬ n.number > a.number := by omega
      have e3 : ¬ n.number > b.number := by omega
      have e4 : ¬ n.number = b.number := by omega
      have e5 : ¬ a.number > b.number := by omega
      have e6 : ¬ a.number = b.number := by omega
      simp [add_to_alarm_list, e1, hna, e3, e4, e5, e6]
    · omega
    · have e1 : ¬ n.number > a.number := by omega
      have e3 : n.number > b.number := hnb
      have e5 : a.number > b.number := by omega
      have e6 : ¬ b.number > a.number := by omega
      have e7 : ¬ b.number = a.number := by omega
      simp [add_to_alarm_list, e1, hna, e3, e5, e6, e7]
    · have e1 : n.number > a.number := hna
      have e3 : ¬ n.number > b.number := by omega
      have e4 : ¬ n.number = b.number := by omega
      have e5 : ¬ a.number > b.number := by omega
      have e6 : ¬ a.number = b.number := by omega
      simp [add_to_alarm_list, e1, e3, e4, e5, e6]
    · have e1 : n.number > a.number := hna
      have e3 : ¬ n.number > b.number := by omega
      have e5 : ¬ a.number > b.number := by omega
      have e6 : ¬ a.number = b.number := by omega
      have e7 : b.number > a.number := by omega
      simp [add_to_alarm_list, e1, e3, hnb, e5, e6, e7]
    · have e1 : n.number > a.number := hna
      have e3 : n.number > b.number := hnb
      rcases lt_or_gt_of_ne hab with h | h
      · have e5 : ¬ a.number > b.number := by omega
        have e6 : ¬ a.number = b.number := by omega
        have e7 : b.number > a.number := h
        simp [add_to_alarm_list, e1, e3, e5, e6, e7]
      · have e5 : a.number > b.number := h
        have e6 : ¬ b.number > a.number := by omega
        have e7 : ¬ b.number = a.number := by omega
        simp [add_to_alarm_list, e1, e3, e5, e6, e7]

/-- One iteration of `alarm_thread` on an alarm list with strictly ascending
positive numbers and a thread list with positive types, written with filters. -/
theorem alarm_thread_iter_filtered (s : State) (hasc : ascending s.alarm_list)
    (hposa : ∀ a ∈ s.alarm_list, 0 < a.number) (hpost : ∀ t ∈ s.thread_list, 0 < t.type) :
    alarm_thread_iter s =
      ((coordinator_filtered { lists := s, workers := [], now := 0 }).lists,
        (coordinator_filtered { lists := s, workers := [], now := 0 }).workers) := by
  have h := apply_action_coordinator_eq { lists := s, workers := [], now := 0 } hasc hposa hpost
  have h1 : (alarm_thread_iter s).1 =
      (coordinator_filtered { lists := s, workers := [], now := 0 }).lists :=
    congrArg System.lists h
  have h2 : [] ++ (alarm_thread_iter s).2 =
      (coordinator_filtered { lists := s, workers := [], now := 0 }).workers :=
    congrArg System.workers h
  rw [List.nil_append] at h2
  exact Prod.ext h1 h2

theorem alarm_thread_iter_thread_pos (s : State) (hpos : ∀ t ∈ s.thread_list, 0 < t.type) :
    ∀ t ∈ (alarm_thread_iter s).1.thread_list, 0 < t.type := by
  intro t ht
  have hmem : t.type ∈ (alarm_thread_iter s).1.thread_list.map (fun t => t.type) :=
    List.mem_map.mpr ⟨t, ht, rfl⟩
  obtain ⟨u, hu, hut⟩ := List.mem_map.mp ((alarm_thread_iter_thread_types s).subset hmem)
  have := hpos u hu
  have hut' : u.type = t.type := hut
  omega

/-- After an iteration of `alarm_thread` that starts with an empty removal list,
every record has its thread created and its type has a live alarm. -/
theorem alarm_thread_iter_reconciled (s : State) (hpos : ∀ t ∈ s.thread_list, 0 < t.type)
    (hq : s.removal_list = []) :
    ∀ t ∈ (alarm_thread_iter s).1.thread_list,
      t.is_created ≠ 0 ∧
      ∃ a ∈ (alarm_thread_iter s).1.alarm_list, a.type = t.type ∧ a.is_done = 0 := by
  have hrl : (state_at_launch s).removal_list = [] := by
    rw [← hq]
    exact (remove_threads_if_no_active_alarm_frame _).2.2
  have hal : (alarm_thread_iter s).1.alarm_list = (state_at_launch s).alarm_list := by
    show (state_at_launch s).removal_list.foldl
      (fun l next => remove_from_alarm_list next.number l) (state_at_launch s).alarm_list = _
    rw [hrl]
    rfl
  have htl : (alarm_thread_iter s).1.thread_list =
      (check_thread_list_and_create_thread (state_at_launch s).thread_list).1 := rfl
  intro t ht
  rw [hal]
  rw [htl, check_thread_list_fst] at ht
  obtain ⟨u, hu, rfl⟩ := List.mem_map.mp ht
  have hlive := state_at_launch_live s hpos u hu
  by_cases h0 : u.is_created = 0
  · simp only [h0, if_true]
    exact ⟨by decide, hlive⟩
  · simp only [h0, if_false]
    exact ⟨h0, hlive⟩

/-! ## Lemmas on the semaphores -/

theorem rw_step_inv (s s' : rw_state) (a : rw_action) (hinv : rw_inv s)
    (hstep : rw_step s a = some s') : rw_inv s' := by
  obtain ⟨h1, h2, h3, h4, h5, h6⟩ := hinv
  cases a <;> simp only [rw_step] at hstep <;> split_ifs at hstep <;>
    (cases hstep; refine ⟨?_, ?_, ?_, ?_, ?_, ?_⟩ <;> simp only <;> omega)

theorem rw_inv_initial : rw_inv rw_initial := by
  unfold rw_inv rw_initial
  simp

theorem rw_run_inv :
    ∀ (acts : List rw_action) (s s' : rw_state), rw_inv s → rw_run s acts = some s' →
      rw_inv s' := by
  intro acts
  induction acts with
  | nil =>
    intro s s' hinv h
    simp only [rw_run, Option.some.injEq] at h
    exact h ▸ hinv
  | cons a rest ih =>
    intro s s' hinv h
    simp only [rw_run] at h
    cases hs : rw_step s a with
    | none => rw [hs] at h; cases h
    | some s1 =>
      rw [hs] at h
      exact ih s1 s' (rw_step_inv s s1 a hinv hs) h

theorem rw_run_append (s : rw_state) (l1 l2 : List rw_action) (s1 : rw_state)
    (h : rw_run s l1 = some s1) : rw_run s (l1 ++ l2) = rw_run s1 l2 := by
  induction l1 generalizing s with
  | nil =>
    simp only [rw_run, Option.some.injEq] at h
    subst h
    rfl
  | cons a rest ih =>
    simp only [rw_run, List.cons_append] at h ⊢
    cases hs : rw_step s a with
    | none => rw [hs] at h; cases h
    | some s2 =>
      rw [hs] at h
      exact ih s2 h

theorem readers_inside_next (k : Nat) (hk : 0 < k) :
    rw_run (readers_inside k) [.lock_wait, .lock_count, .lock_post] =
      some (readers_inside (k + 1)) := by
  have hne : ¬ ((k : Int) + 1 = 1) := by omega
  simp [rw_run, rw_step, readers_inside, hne]

theorem readers_inside_reachable :
    ∀ k : Nat, ∃ acts, rw_run rw_initial acts = some (readers_inside (k + 1)) := by
  intro k
  induction k with
  | zero => exact ⟨[.lock_wait, .lock_count, .lock_gate, .lock_post], by decide⟩
  | succ k ih =>
    obtain ⟨acts, h⟩ := ih
    refine ⟨acts ++ [.lock_wait, .lock_count, .lock_post], ?_⟩
    rw [rw_run_append _ _ _ _ h]
    exact readers_inside_next (k + 1) (by omega)

/-! ## The claims -/

/-- C1, uniqueness of the request store: after any sequence of
`add_to_alarm_list` calls from the empty list no two nodes share a number, every
node was submitted, for every submitted alarm the nodes with its number are
exactly the last alarm submitted with that number, and of two submissions with
one number only the second is left. -/
theorem add_to_alarm_list_uniqueness (subs : List alarm_t) :
    (submit_all subs).Pairwise (fun x y => x.number ≠ y.number) ∧
    (∀ x ∈ submit_all subs, x ∈ subs) ∧
    (∀ a ∈ subs, ∃ last,
      (subs.filter (fun x => decide (x.number = a.number))).getLast? = some last ∧
      (submit_all subs).filter (fun x => decide (x.number = a.number)) = [last]) ∧
    (∀ a b : alarm_t, a.number = b.number → submit_all [a, b] = [b]) := by
  refine ⟨ascending_distinct _ (submit_all_ascending subs), submit_all_mem subs, ?_, ?_⟩
  · intro a ha
    have hmem : a ∈ subs.filter (fun x => decide (x.number = a.number)) := by
      simp [ha]
    cases hl : (subs.filter (fun x => decide (x.number = a.number))).getLast? with
    | none =>
      rw [List.getLast?_eq_none_iff] at hl
      rw [hl] at hmem
      simp at hmem
    | some last => exact ⟨last, rfl, submit_all_lookup a.number subs last hl⟩
  · intro a b hab
    simp [submit_all, add_to_alarm_list, hab]

/-- C2, order invariant: after any sequence of `add_to_alarm_list` and
`remove_from_alarm_list` calls from the empty list, the numbers met from head to
tail are strictly ascending. -/
theorem alarm_list_order_invariant (ops : List store_op) :
    (run_ops ops).Pairwise (fun x y => x.number < y.number) := by
  show ascending (run_ops ops)
  induction ops using List.reverseRecOn with
  | nil => simp [run_ops, ascending]
  | append_singleton ops op ih =>
    have : run_ops (ops ++ [op]) = apply_op (run_ops ops) op := by
      simp [run_ops, List.foldl_append]
    rw [this]
    exact apply_op_ascending _ ih op

/-- C3, cancellation correctness: `remove_alarms_in_removal_list` leaves exactly
the alarms whose number is not queued, in their order, empties the queue and
leaves the thread list alone; and when `X` was queued and any alarms (those with
other numbers among them) were submitted afterwards, no alarm numbered `X` is
left and `alarm_exists(X, 1)` is zero. -/
theorem remove_alarms_in_removal_list_correct (s : State) (X : Int) (subs : List alarm_t) :
    (remove_alarms_in_removal_list s).alarm_list =
      s.alarm_list.filter (fun a => decide (a.number ∉ s.removal_list.map (fun r => r.number))) ∧
    (remove_alarms_in_removal_list s).removal_list = [] ∧
    (remove_alarms_in_removal_list s).thread_list = s.thread_list ∧
    (∀ a ∈ (remove_alarms_in_removal_list (cancel_then_submit s X subs)).alarm_list,
      a.number ≠ X) ∧
    alarm_exists X 1 (remove_alarms_in_removal_list (cancel_then_submit s X subs)).alarm_list
      = 0 := by
  have hno : ∀ a ∈ (remove_alarms_in_removal_list (cancel_then_submit s X subs)).alarm_list,
      a.number ≠ X := by
    intro a ha
    simp only [remove_alarms_in_removal_list, cancel_then_submit, drain_fold_eq_filter,
      add_to_removal_list_eq] at ha
    have := (List.mem_filter.mp ha).2
    intro hX
    simp [hX] at this
  refine ⟨drain_fold_eq_filter _ _, rfl, rfl, hno, ?_⟩
  simp only [alarm_exists, if_true, one_ne_zero, if_false, Nat.cast_eq_zero,
    List.countP_eq_zero]
  intro a ha
  have := hno a ha
  simp [this]

/-- The scenario of C3: alarm 2 of type 7 is in the list, its cancellation is
queued, alarm 4 is submitted, and the drain runs. -/
theorem remove_alarms_in_removal_list_correct_witness :
    alarm_exists 2 1 (remove_alarms_in_removal_list (cancel_then_submit
      { alarm_list := [live_alarm 2 7 "x"], thread_list := [], removal_list := [] } 2
      [live_alarm 4 7 "y"])).alarm_list = 0 :=
  (remove_alarms_in_removal_list_correct _ 2 _).2.2.2.2

/-- C4, convergence: when every registered type is positive and no alarm of
type `C` is live, after one iteration of `alarm_thread` no record of type `C` is
left, and a display thread of type `C` that runs one iteration finds
`thread_exists(C)` zero and terminates. -/
theorem alarm_thread_convergence (s : State) (C now : Int)
    (hpos : ∀ t ∈ s.thread_list, 0 < t.type)
    (hdead : ∀ a ∈ s.alarm_list, a.type = C → a.is_done ≠ 0) :
    (∀ t ∈ (alarm_thread_iter s).1.thread_list, t.type ≠ C) ∧
    thread_exists C (alarm_thread_iter s).1.thread_list = 0 ∧
    (periodic_display_threads_iter C now (alarm_thread_iter s).1).terminated = true := by
  have hnone : ∀ t ∈ (alarm_thread_iter s).1.thread_list, t.type ≠ C := by
    intro t ht hC
    have hty : C ∈ (alarm_thread_iter s).1.thread_list.map (fun t => t.type) :=
      List.mem_map.mpr ⟨t, ht, hC⟩
    simp only [alarm_thread_iter, remove_alarms_in_removal_list] at hty
    rw [check_thread_list_types] at hty
    rw [remove_threads_if_no_active_alarm_eq
      { alarm_list := remove_alarms_that_are_done s.alarm_list, thread_list := s.thread_list,
        removal_list := s.removal_list } hpos] at hty
    obtain ⟨u, hu, huC⟩ := List.mem_map.mp hty
    have hlive := (List.mem_filter.mp hu).2
    simp only [decide_eq_true_eq] at hlive
    obtain ⟨a, ha, hat, had⟩ := (thread_has_active_alarm_ne_zero _ _).mp hlive
    have ha' : a ∈ s.alarm_list := remove_alarms_that_are_done_mem _ a ha
    exact hdead a ha' (by rw [hat]; exact huC) had
  have hzero := (thread_exists_eq_zero C _).mpr hnone
  refine ⟨hnone, hzero, ?_⟩
  simp [periodic_display_threads_iter, hzero]

/-- The scenario of C4: the only alarm of type 5 is done and type 5 is
registered. -/
theorem alarm_thread_convergence_witness :
    (∀ t ∈ [({ type := 5, is_created := 1 } : thread_ds)], 0 < t.type) ∧
    (∀ a ∈ [done_alarm 1 5 "hi"], a.type = 5 → a.is_done ≠ 0) ∧
    (periodic_display_threads_iter 5 200 (alarm_thread_iter
      { alarm_list := [done_alarm 1 5 "hi"]
        thread_list := [{ type := 5, is_created := 1 }]
        removal_list := [] }).1).terminated = true :=
  ⟨by decide, by decide,
    (alarm_thread_convergence
      { alarm_list := [done_alarm 1 5 "hi"]
        thread_list := [{ type := 5, is_created := 1 }]
        removal_list := [] } 5 200 (by decide) (by decide)).2.2⟩

/-- C5, `remove_from_alarm_list` removes every match: on any list, sorted or
not, with or without repeated numbers, the call returns the nodes whose number
differs from `msg_number`, in their order, and none with that number is left. -/
theorem remove_from_alarm_list_removes_all (msg_number : Int) (l : List alarm_t) :
    remove_from_alarm_list msg_number l =
      l.filter (fun a => decide (a.number ≠ msg_number)) ∧
    ∀ a ∈ remove_from_alarm_list msg_number l, a.number ≠ msg_number := by
  refine ⟨remove_from_alarm_list_eq_filter msg_number l, ?_⟩
  intro a ha
  rw [remove_from_alarm_list_eq_filter] at ha
  simpa using (List.mem_filter.mp ha).2

/-- C6, `add_to_alarm_list` changes nothing but the submitted number: on an
ascending list the nodes with another number are kept in their order; when the
number was absent the alarm is linked in between the smaller and the larger
numbers and the length grows by one; when it was present the alarm stands where
the old node stood and the length is unchanged; when it exceeds every number the
alarm is appended at the tail. -/
theorem add_to_alarm_list_frame (s : List alarm_t) (a : alarm_t) (hasc : ascending s) :
    (add_to_alarm_list a s).filter (fun x => decide (x.number ≠ a.number)) =
      s.filter (fun x => decide (x.number ≠ a.number)) ∧
    ((∀ x ∈ s, x.number ≠ a.number) →
      (add_to_alarm_list a s).length = s.length + 1 ∧
      ∃ pre post, s = pre ++ post ∧ add_to_alarm_list a s = pre ++ a :: post ∧
        (∀ x ∈ pre, x.number < a.number) ∧ (∀ x ∈ post, a.number < x.number)) ∧
    ((∃ x ∈ s, x.number = a.number) →
      (add_to_alarm_list a s).length = s.length ∧
      ∃ pre old post, s = pre ++ old :: post ∧ old.number = a.number ∧
        add_to_alarm_list a s = pre ++ a :: post) ∧
    ((∀ x ∈ s, x.number < a.number) → add_to_alarm_list a s = s ++ [a]) := by
  refine ⟨add_to_alarm_list_filter_ne a s, ?_, ?_, add_to_alarm_list_tail a s⟩
  · intro h
    exact ⟨add_to_alarm_list_length_absent a s h, add_to_alarm_list_split_absent a s hasc h⟩
  · intro h
    obtain ⟨pre, old, post, e1, e2, e3⟩ := add_to_alarm_list_split_present a s hasc h
    refine ⟨?_, pre, old, post, e1, e2, e3⟩
    rw [e3, e1]
    simp

/-- An instance of C6: alarm 5 submitted to the ascending list of alarms 1 and 3
goes to the tail. -/
theorem add_to_alarm_list_frame_witness :
    ascending [live_alarm 1 9 "a", live_alarm 3 9 "b"] ∧
    add_to_alarm_list (live_alarm 5 9 "c") [live_alarm 1 9 "a", live_alarm 3 9 "b"] =
      [live_alarm 1 9 "a", live_alarm 3 9 "b"] ++ [live_alarm 5 9 "c"] :=
  ⟨by decide, (add_to_alarm_list_frame _ _ (by decide)).2.2.2 (by decide)⟩

/-- C7, idempotence of replace: on any list, `add_to_alarm_list` of the same
alarm twice in a row gives the list one call gives. -/
theorem add_to_alarm_list_idempotent (s : List alarm_t) (a : alarm_t) :
    add_to_alarm_list a (add_to_alarm_list a s) = add_to_alarm_list a s :=
  add_to_alarm_list_idem a s

/-- C8, `remove_alarms_that_are_done` purges exactly the done alarms: on a list
with strictly ascending positive numbers the call returns the nodes whose
`is_done` is zero, in their order, and no node with `is_done` set is left. -/
theorem remove_alarms_that_are_done_purges (l : List alarm_t) (hasc : ascending l)
    (hpos : ∀ a ∈ l, 0 < a.number) :
    remove_alarms_that_are_done l = l.filter (fun a => decide (a.is_done = 0)) ∧
    ∀ a ∈ remove_alarms_that_are_done l, a.is_done = 0 := by
  refine ⟨remove_alarms_that_are_done_eq_filter l hasc hpos, ?_⟩
  intro a ha
  rw [remove_alarms_that_are_done_eq_filter l hasc hpos] at ha
  simpa using (List.mem_filter.mp ha).2

/-- An instance of C8: of alarm 1 (done) and alarm 2 (not done) the sweep leaves
alarm 2. -/
theorem remove_alarms_that_are_done_purges_witness :
    ascending [done_alarm 1 9 "a", live_alarm 2 9 "b"] ∧
    (∀ a ∈ [done_alarm 1 9 "a", live_alarm 2 9 "b"], 0 < a.number) ∧
    remove_alarms_that_are_done [done_alarm 1 9 "a", live_alarm 2 9 "b"] =
      [live_alarm 2 9 "b"] :=
  ⟨by decide, by decide,
    (remove_alarms_that_are_done_purges _ (by decide) (by decide)).1.trans (by decide)⟩

/-- C9, `remove_threads_if_no_active_alarm` retires exactly the dead types: when
every registered type is positive (repeats allowed) the call leaves the records
whose type has an alarm with `is_done` zero, unchanged and in their order, and
leaves the alarm list and the removal list alone. -/
theorem remove_threads_if_no_active_alarm_retires (s : State)
    (hpos : ∀ t ∈ s.thread_list, 0 < t.type) :
    (remove_threads_if_no_active_alarm s).thread_list =
      s.thread_list.filter
        (fun t => decide (∃ a ∈ s.alarm_list, a.type = t.type ∧ a.is_done = 0)) ∧
    (remove_threads_if_no_active_alarm s).alarm_list = s.alarm_list ∧
    (remove_threads_if_no_active_alarm s).removal_list = s.removal_list := by
  rw [remove_threads_if_no_active_alarm_eq s hpos]
  refine ⟨?_, rfl, rfl⟩
  apply List.filter_congr
  intro t _
  exact decide_eq_decide.mpr (thread_has_active_alarm_ne_zero t.type s.alarm_list)

/-- An instance of C9: types 5 and 7 are registered, only type 5 has a live
alarm, and the prune leaves the record of type 5. -/
theorem remove_threads_if_no_active_alarm_retires_witness :
    (∀ t ∈ [({ type := 5, is_created := 1 } : thread_ds), { type := 7, is_created := 0 }],
      0 < t.type) ∧
    (remove_threads_if_no_active_alarm
      { alarm_list := [live_alarm 1 5 "a"]
        thread_list := [{ type := 5, is_created := 1 }, { type := 7, is_created := 0 }]
        removal_list := [] }).thread_list = [{ type := 5, is_created := 1 }] :=
  ⟨by decide,
    (remove_threads_if_no_active_alarm_retires
      { alarm_list := [live_alarm 1 5 "a"]
        thread_list := [{ type := 5, is_created := 1 }, { type := 7, is_created := 0 }]
        removal_list := [] } (by decide)).1.trans (by decide)⟩

/-- C10, `check_thread_list_and_create_thread` starts each worker once: the
threads created by one call are the types of the records with `is_created` zero,
one per record in list order; afterwards every record has `is_created` set, the
other records are untouched, the types and their order are unchanged; a second
call right after creates no thread and changes nothing. -/
theorem check_thread_list_and_create_thread_once (l : List thread_ds) :
    (check_thread_list_and_create_thread l).2 =
      (l.filter (fun t => decide (t.is_created = 0))).map (fun t => t.type) ∧
    (check_thread_list_and_create_thread l).1 =
      l.map (fun t => if t.is_created = 0 then { t with is_created := 1 } else t) ∧
    (∀ t ∈ (check_thread_list_and_create_thread l).1, t.is_created ≠ 0) ∧
    (check_thread_list_and_create_thread l).1.map (fun t => t.type) =
      l.map (fun t => t.type) ∧
    (check_thread_list_and_create_thread (check_thread_list_and_create_thread l).1).2 = [] ∧
    (check_thread_list_and_create_thread (check_thread_list_and_create_thread l).1).1 =
      (check_thread_list_and_create_thread l).1 := by
  have hset : ∀ t ∈ (check_thread_list_and_create_thread l).1, t.is_created ≠ 0 := by
    intro t ht
    rw [check_thread_list_fst] at ht
    obtain ⟨u, _, rfl⟩ := List.mem_map.mp ht
    by_cases hu : u.is_created = 0 <;> simp [hu]
  refine ⟨check_thread_list_snd l, check_thread_list_fst l, hset, check_thread_list_types l,
    ?_, ?_⟩
  · rw [check_thread_list_snd]
    have : (check_thread_list_and_create_thread l).1.filter
        (fun t => decide (t.is_created = 0)) = [] := by
      rw [List.filter_eq_nil_iff]
      intro t ht
      simpa using hset t ht
    rw [this]
    rfl
  · rw [check_thread_list_fst (check_thread_list_and_create_thread l).1]
    conv_rhs => rw [← List.map_id (check_thread_list_and_create_thread l).1]
    apply List.map_congr_left
    intro t ht
    simp [hset t ht]

/-- C11, prune before launch: when every registered type is positive, the
threads an iteration of `alarm_thread` creates are those
`check_thread_list_and_create_thread` creates on the lists left by the sweep and
the prune, and each type a thread is created for has, in the alarm list at that
moment, an alarm with `is_done` zero (so `alarm_exists(type, 0)` is not zero). -/
theorem alarm_thread_prune_before_launch (s : State)
    (hpos : ∀ t ∈ s.thread_list, 0 < t.type) :
    (alarm_thread_iter s).2 =
      (check_thread_list_and_create_thread (state_at_launch s).thread_list).2 ∧
    ∀ c ∈ (alarm_thread_iter s).2,
      (∃ a ∈ (state_at_launch s).alarm_list, a.type = c ∧ a.is_done = 0) ∧
      alarm_exists c 0 (state_at_launch s).alarm_list ≠ 0 := by
  refine ⟨rfl, ?_⟩
  intro c hc
  have hc' : c ∈ (check_thread_list_and_create_thread (state_at_launch s).thread_list).2 := hc
  rw [check_thread_list_snd] at hc'
  obtain ⟨t, ht, rfl⟩ := List.mem_map.mp hc'
  have hlive := state_at_launch_live s hpos t (List.mem_of_mem_filter ht)
  refine ⟨hlive, ?_⟩
  have := (thread_has_active_alarm_ne_zero t.type (state_at_launch s).alarm_list).mpr hlive
  simpa [thread_has_active_alarm] using this

/-- An instance of C11: types 5 and 7 are registered and not yet created, only
type 5 has a live alarm, and the iteration creates a thread for type 5 alone. -/
theorem alarm_thread_prune_before_launch_witness :
    (∀ t ∈ [({ type := 5, is_created := 0 } : thread_ds), { type := 7, is_created := 0 }],
      0 < t.type) ∧
    ∀ c ∈ (alarm_thread_iter
      { alarm_list := [live_alarm 1 5 "a"]
        thread_list := [{ type := 5, is_created := 0 }, { type := 7, is_created := 0 }]
        removal_list := [] }).2,
      alarm_exists c 0 (state_at_launch
        { alarm_list := [live_alarm 1 5 "a"]
          thread_list := [{ type := 5, is_created := 0 }, { type := 7, is_created := 0 }]
          removal_list := [] }).alarm_list ≠ 0 :=
  ⟨by decide, fun c hc =>
    ((alarm_thread_prune_before_launch
      { alarm_list := [live_alarm 1 5 "a"]
        thread_list := [{ type := 5, is_created := 0 }, { type := 7, is_created := 0 }]
        removal_list := [] } (by decide)).2 c hc).2⟩

/-- C12 fails on the trace `reregister_trace`: after the type 5 record is pruned
and type 5 is registered again while the first display thread has not run, two
running display threads are bound to type 5. -/
theorem two_display_threads_after_reregister : (run 0 reregister_trace).workers.count 5 = 2 := by
  have e2 : apply_action (apply_action (initial 0)
        (.command (alarm_line 100 5 1 [Char.ofNat 97]))) (.command (create_thread_line 5)) =
      ⟨⟨[new_alarm 0 (alarm_line 100 5 1 [Char.ofNat 97])], [⟨5, 0⟩], []⟩, [], 0⟩ := by decide
  have e3 : apply_action
        ⟨⟨[new_alarm 0 (alarm_line 100 5 1 [Char.ofNat 97])], [⟨5, 0⟩], []⟩, [], 0⟩
        .coordinator =
      ⟨⟨[new_alarm 0 (alarm_line 100 5 1 [Char.ofNat 97])], [⟨5, 1⟩], []⟩, [5], 0⟩ :=
    (apply_action_coordinator_eq _ (by decide) (by decide) (by decide)).trans (by decide)
  have e4 : apply_action
        ⟨⟨[new_alarm 0 (alarm_line 100 5 1 [Char.ofNat 97])], [⟨5, 1⟩], []⟩, [5], 0⟩
        (.command (cancel_line 1)) =
      ⟨⟨[new_alarm 0 (alarm_line 100 5 1 [Char.ofNat 97])], [⟨5, 1⟩], [⟨1⟩]⟩, [5], 0⟩ := by
    decide
  have e5 : apply_action
        ⟨⟨[new_alarm 0 (alarm_line 100 5 1 [Char.ofNat 97])], [⟨5, 1⟩], [⟨1⟩]⟩, [5], 0⟩
        .coordinator = ⟨⟨[], [⟨5, 1⟩], []⟩, [5], 0⟩ :=
    (apply_action_coordinator_eq _ (by decide) (by decide) (by decide)).trans (by decide)
  have e6 : apply_action ⟨⟨[], [⟨5, 1⟩], []⟩, [5], 0⟩ .coordinator = ⟨⟨[], [], []⟩, [5], 0⟩ :=
    (apply_action_coordinator_eq _ (by decide) (by decide) (by decide)).trans (by decide)
  have e8 : apply_action (apply_action ⟨⟨[], [], []⟩, [5], 0⟩
        (.command (alarm_line 100 5 2 [Char.ofNat 98]))) (.command (create_thread_line 5)) =
      ⟨⟨[new_alarm 0 (alarm_line 100 5 2 [Char.ofNat 98])], [⟨5, 0⟩], []⟩, [5], 0⟩ := by decide
  have e9 : apply_action
        ⟨⟨[new_alarm 0 (alarm_line 100 5 2 [Char.ofNat 98])], [⟨5, 0⟩], []⟩, [5], 0⟩
        .coordinator =
      ⟨⟨[new_alarm 0 (alarm_line 100 5 2 [Char.ofNat 98])], [⟨5, 1⟩], []⟩, [5, 5], 0⟩ :=
    (apply_action_coordinator_eq _ (by decide) (by decide) (by decide)).trans (by decide)
  simp only [run, reregister_trace, List.foldl_cons, List.foldl_nil, e2, e3, e4, e5, e6, e8, e9]
  decide

/-- C12 as amended: in every state reached from the start by steps none of which
registers a type some running display thread is still bound to, at most one
running display thread is bound to any given type. -/
theorem one_display_thread_per_type (t0 : Int) (acts : List action)
    (h : all_no_stale_register (initial t0) acts = true) (c : Int) :
    (run t0 acts).workers.count c ≤ 1 := by
  have h0 : (initial t0).workers.count c + pending c (initial t0).lists.thread_list ≤ 1 := by
    simp [initial, pending]
  have := foldl_workers_pending c acts (initial t0) h0 h
  unfold run
  omega

/-- An instance of the amended C12: an alarm of type 5 is submitted, type 5 is
registered and the coordinator runs. -/
theorem one_display_thread_per_type_witness :
    all_no_stale_register (initial 0) (reregister_trace.take 3) = true ∧
    (run 0 (reregister_trace.take 3)).workers.count 5 ≤ 1 :=
  ⟨by decide, one_display_thread_per_type 0 (reregister_trace.take 3) (by decide) 5⟩

/-- C13, one record per type: in every state reached from the start by lines
handled by `main`, iterations of `alarm_thread`, iterations of display threads
and clock ticks, the types in the thread list are pairwise distinct, so at most
one record holds any given type. -/
theorem thread_list_one_record_per_type (t0 : Int) (acts : List action) :
    ((run t0 acts).lists.thread_list.map (fun t => t.type)).Nodup ∧
    ∀ c : Int,
      ((run t0 acts).lists.thread_list.filter (fun t => decide (t.type = c))).length ≤ 1 := by
  refine ⟨run_thread_types_nodup t0 acts, ?_⟩
  intro c
  rw [filter_type_length_eq_count]
  exact List.nodup_iff_count_le_one.mp (run_thread_types_nodup t0 acts) c

/-- C14, the `Create_Thread` line: for a positive type `c`, `main` appends one
record `{c, is_created = 0}` at the tail of the thread list when an alarm of type
`c` with `is_done` zero exists and no record holds `c`; without such an alarm it
reports that no alarm exists, with such an alarm and a record for `c` it reports
a second request, and in both cases no list changes; the alarm list and the
removal list never change. -/
theorem main_create_thread (now : Int) (p : parsed_line) (s : State) (c : Int)
    (hline : is_create_thread_line p c) (hc : 0 < c) :
    ((∃ a ∈ s.alarm_list, a.type = c ∧ a.is_done = 0) → (∀ t ∈ s.thread_list, t.type ≠ c) →
      main_iter now p s =
        ({ s with thread_list := s.thread_list ++ [{ type := c, is_created := 0 }] },
          main_outcome.thread_requested)) ∧
    ((¬ ∃ a ∈ s.alarm_list, a.type = c ∧ a.is_done = 0) →
      main_iter now p s = (s, main_outcome.thread_no_alarm)) ∧
    ((∃ a ∈ s.alarm_list, a.type = c ∧ a.is_done = 0) → (∃ t ∈ s.thread_list, t.type = c) →
      main_iter now p s = (s, main_outcome.thread_duplicate)) ∧
    (main_iter now p s).1.alarm_list = s.alarm_list ∧
    (main_iter now p s).1.removal_list = s.removal_list := by
  rw [main_iter_create_thread now p s c hline hc]
  refine ⟨?_, ?_, ?_, ?_, ?_⟩
  · intro hlive hnone
    rw [if_pos ((alarm_exists_type_ne_zero c _).mpr hlive),
      if_pos ((thread_exists_eq_zero c _).mpr hnone)]
  · intro hdead
    rw [if_neg (fun h => hdead ((alarm_exists_type_ne_zero c _).mp h))]
  · intro hlive hsome
    rw [if_pos ((alarm_exists_type_ne_zero c _).mpr hlive), if_neg]
    intro h
    obtain ⟨t, ht, htc⟩ := hsome
    exact (thread_exists_eq_zero c _).mp h t ht htc
  · split_ifs <;> rfl
  · split_ifs <;> rfl

/-- An instance of C14: a live alarm of type 5 exists, nothing is registered,
and `Create_Thread: MessageType(5)` appends the record of type 5. -/
theorem main_create_thread_witness :
    is_create_thread_line (create_thread_line 5) 5 ∧ (0 : Int) < 5 ∧
    main_iter 0 (create_thread_line 5)
      { alarm_list := [live_alarm 1 5 "a"], thread_list := [], removal_list := [] } =
      ({ alarm_list := [live_alarm 1 5 "a"]
         thread_list := [{ type := 5, is_created := 0 }]
         removal_list := [] }, main_outcome.thread_requested) :=
  ⟨by decide, by decide,
    (main_create_thread 0 (create_thread_line 5)
      { alarm_list := [live_alarm 1 5 "a"], thread_list := [], removal_list := [] } 5
      (by decide) (by decide)).1 ⟨live_alarm 1 5 "a", by simp, by decide⟩ (by simp)⟩

/-- C15, the `Cancel` line: for a positive number `x`, `main` appends one node
`{x}` at the tail of the removal list when an alarm numbered `x` with `is_done`
zero exists and `x` is not queued; without such an alarm it reports that no
alarm exists, with such an alarm and `x` queued it reports a second request, and
in both cases no list changes; the alarm list and the thread list never change.
In every state reached from the start the queued numbers are pairwise
distinct. -/
theorem main_cancel (now : Int) (p : parsed_line) (s : State) (x : Int)
    (hline : is_cancel_line p x) (hx : 0 < x) :
    ((∃ a ∈ s.alarm_list, a.number = x ∧ a.is_done = 0) →
      (∀ r ∈ s.removal_list, r.number ≠ x) →
      main_iter now p s =
        ({ s with removal_list := s.removal_list ++ [{ number := x }] },
          main_outcome.cancel_queued)) ∧
    ((¬ ∃ a ∈ s.alarm_list, a.number = x ∧ a.is_done = 0) →
      main_iter now p s = (s, main_outcome.cancel_no_alarm)) ∧
    ((∃ a ∈ s.alarm_list, a.number = x ∧ a.is_done = 0) →
      (∃ r ∈ s.removal_list, r.number = x) →
      main_iter now p s = (s, main_outcome.cancel_duplicate)) ∧
    (main_iter now p s).1.alarm_list = s.alarm_list ∧
    (main_iter now p s).1.thread_list = s.thread_list ∧
    (∀ (t0 : Int) (acts : List action),
      ((run t0 acts).lists.removal_list.map (fun r => r.number)).Nodup) := by
  rw [main_iter_cancel now p s x hline hx]
  refine ⟨?_, ?_, ?_, ?_, ?_, run_removal_numbers_nodup⟩
  · intro hlive hnone
    rw [if_pos ((alarm_exists_number_ne_zero x _).mpr hlive),
      if_pos ((remove_request_exists_eq_zero x _).mpr hnone)]
  · intro hdead
    rw [if_neg (fun h => hdead ((alarm_exists_number_ne_zero x _).mp h))]
  · intro hlive hsome
    rw [if_pos ((alarm_exists_number_ne_zero x _).mpr hlive), if_neg]
    intro h
    obtain ⟨r, hr, hrx⟩ := hsome
    exact (remove_request_exists_eq_zero x _).mp h r hr hrx
  · split_ifs <;> rfl
  · split_ifs <;> rfl

/-- An instance of C15: alarm 2 is live, nothing is queued, and
`Cancel: Message(2)` queues 2. -/
theorem main_cancel_witness :
    is_cancel_line (cancel_line 2) 2 ∧ (0 : Int) < 2 ∧
    main_iter 0 (cancel_line 2)
      { alarm_list := [live_alarm 2 7 "x"], thread_list := [], removal_list := [] } =
      ({ alarm_list := [live_alarm 2 7 "x"]
         thread_list := []
         removal_list := [{ number := 2 }] }, main_outcome.cancel_queued) :=
  ⟨by decide, by decide,
    (main_cancel 0 (cancel_line 2)
      { alarm_list := [live_alarm 2 7 "x"], thread_list := [], removal_list := [] } 2
      (by decide) (by decide)).1 ⟨live_alarm 2 7 "x", by simp, by decide⟩ (by simp)⟩

/-- C16 at the failing input `-5 Message(2, 3) hi`: the validation block does
not restart the loop and the alarm with `seconds = -5` is inserted into the
alarm list. -/
theorem main_accepts_negative_seconds :
    is_alarm_line (alarm_line (-5) 2 3 [Char.ofNat 104, Char.ofNat 105]) ∧
    validation_continue (alarm_line (-5) 2 3 [Char.ofNat 104, Char.ofNat 105]) = false ∧
    (main_iter 0 (alarm_line (-5) 2 3 [Char.ofNat 104, Char.ofNat 105])
      { alarm_list := [], thread_list := [], removal_list := [] }).2 =
        main_outcome.alarm_inserted ∧
    ((main_iter 0 (alarm_line (-5) 2 3 [Char.ofNat 104, Char.ofNat 105])
      { alarm_list := [], thread_list := [], removal_list := [] }).1.alarm_list.map
        (fun a => (a.seconds, a.type, a.number))) = [(-5, 2, 3)] := by
  refine ⟨by decide, by decide, by decide, by decide⟩

/-- C17, `alarm_exists` counts live matches only: mode 0 returns the number of
nodes of type `x` with `is_done` zero, mode 1 the number of nodes numbered `x`
with `is_done` zero, any other mode 0; the result is not zero exactly when such
a node exists; the result is the same on the list without its done nodes.  The
call writes no list: it is a function of the list alone. -/
theorem alarm_exists_counts_live (x type : Int) (l : List alarm_t) :
    alarm_exists x 0 l =
      ((l.filter (fun a => decide (a.type = x ∧ a.is_done = 0))).length : Int) ∧
    alarm_exists x 1 l =
      ((l.filter (fun a => decide (a.number = x ∧ a.is_done = 0))).length : Int) ∧
    (type ≠ 0 → type ≠ 1 → alarm_exists x type l = 0) ∧
    (alarm_exists x 0 l ≠ 0 ↔ ∃ a ∈ l, a.type = x ∧ a.is_done = 0) ∧
    (alarm_exists x 1 l ≠ 0 ↔ ∃ a ∈ l, a.number = x ∧ a.is_done = 0) ∧
    alarm_exists x type l = alarm_exists x type (l.filter (fun a => decide (a.is_done = 0))) := by
  refine ⟨?_, ?_, ?_, alarm_exists_type_ne_zero x l, alarm_exists_number_ne_zero x l, ?_⟩
  · simp [alarm_exists, List.countP_eq_length_filter]
  · simp [alarm_exists, List.countP_eq_length_filter]
  · intro h0 h1
    simp [alarm_exists, h0, h1]
  · unfold alarm_exists
    simp only [List.countP_filter]
    split_ifs
    · congr 2
      funext a
      by_cases h : a.is_done = 0 <;> simp [h]
    · congr 2
      funext a
      by_cases h : a.is_done = 0 <;> simp [h]
    · rfl

/-- C18 fails in the state reached when a writer is inside, a reader has entered
`alarm_reader_semaphore_lock`, has run `readCount++` and stands blocked at
`sem_wait(&alarmListAccess)`: `readCount` is 1 while no reader is inside a scan
or holds the read side of the lock. -/
theorem readCount_counts_blocked_reader :
    ∃ s, rw_run rw_initial [.write_wait, .lock_wait, .lock_count] = some s ∧
      s.writing = 1 ∧ s.lock_first = 1 ∧ s.readCount = 1 ∧ s.reading = 0 ∧
      readers_holding s = 0 :=
  ⟨{ readCountAccess := 0, alarmListAccess := 0, readCount := 1, lock_entered := 0,
     lock_first := 1, lock_leaving := 0, reading := 0, release_entered := 0,
     release_last := 0, release_leaving := 0, writing := 1 },
    by decide, rfl, rfl, rfl, rfl, rfl⟩

/-- C18 as amended: in every state reached from the initial values by steps of
readers and writers, at most one writer is inside; while a writer is inside no
reader is inside a scan, holds the read side of the lock or is about to release
the gate; `readCount` is the number of readers holding the read side plus the
reader, if any, that has run `readCount++` and stands at
`sem_wait(&alarmListAccess)`; whenever `readCountAccess` is free, `readCount` is
the number of readers inside a scan; and for every `n` a state with `n` readers
inside together is reached. -/
theorem alarm_list_readers_writers (acts : List rw_action) (s : rw_state)
    (h : rw_run rw_initial acts = some s) :
    s.writing ≤ 1 ∧
    (0 < s.writing → s.reading = 0 ∧ readers_holding s = 0 ∧ s.release_last = 0) ∧
    s.readCount = ((readers_holding s + s.lock_first : Nat) : Int) ∧
    (s.readCountAccess = 1 → s.readCount = (s.reading : Int) ∧ readers_holding s = s.reading) ∧
    ∀ n : Nat, ∃ acts' s', rw_run rw_initial acts' = some s' ∧ s'.reading = n ∧
      s'.readCount = (n : Int) := by
  obtain ⟨h1, h2, h3, h4, h5, h6⟩ := rw_run_inv acts rw_initial s rw_inv_initial h
  unfold readers_holding
  refine ⟨by omega, by omega, by omega, by omega, ?_⟩
  intro n
  cases n with
  | zero => exact ⟨[], rw_initial, rfl, rfl, rfl⟩
  | succ k =>
    obtain ⟨acts', h'⟩ := readers_inside_reachable k
    exact ⟨acts', readers_inside (k + 1), h', rfl, rfl⟩

/-- An instance of the amended C18: one reader has run
`alarm_reader_semaphore_lock` to its end. -/
theorem alarm_list_readers_writers_witness :
    rw_run rw_initial [.lock_wait, .lock_count, .lock_gate, .lock_post] =
      some (readers_inside 1) ∧
    (readers_inside 1).readCount = ((readers_inside 1).reading : Int) :=
  ⟨by decide,
    ((alarm_list_readers_writers [.lock_wait, .lock_count, .lock_gate, .lock_post]
      (readers_inside 1) (by decide)).2.2.2.1 rfl).1⟩

/-- C19, the scan of a display thread: when `time - now` fits a C `int` for the
nodes of type `c` not yet done, one iteration of `periodic_display_threads` for
type `c` sets `is_done` on exactly the nodes of type `c` with `is_done` zero and
`time < now`, and leaves every other node, every other field and the order as
they were; it prints exactly the nodes of type `c` with `is_done` zero and
`now ≤ time`, in list order, with `time - now`; the thread list and the removal
list are untouched. -/
theorem periodic_display_threads_scan (c now : Int) (s : State)
    (hrange : ∀ a ∈ s.alarm_list, a.type = c → a.is_done = 0 →
      -2 ^ 31 ≤ a.time - now ∧ a.time - now < 2 ^ 31) :
    (periodic_display_threads_iter c now s).state.alarm_list =
      s.alarm_list.map (fun a =>
        if a.type = c ∧ a.is_done = 0 ∧ a.time < now then { a with is_done := 1 } else a) ∧
    (periodic_display_threads_iter c now s).printed =
      (s.alarm_list.filter (fun a => decide (a.type = c ∧ a.is_done = 0 ∧ now ≤ a.time))).map
        (fun a => (a, a.time - now)) ∧
    (periodic_display_threads_iter c now s).state.alarm_list.length = s.alarm_list.length ∧
    (periodic_display_threads_iter c now s).state.thread_list = s.thread_list ∧
    (periodic_display_threads_iter c now s).state.removal_list = s.removal_list := by
  have h1 := display_scan_fst c now s.alarm_list hrange
  refine ⟨h1, display_scan_snd c now s.alarm_list hrange, ?_, rfl, rfl⟩
  show (display_scan c now s.alarm_list).1.length = _
  rw [h1, List.length_map]

/-- An instance of C19 at clock 100: alarm 1 of type 5 with deadline 100 is
printed with 0 seconds left, alarm 2 of type 5 with deadline 99 is marked done,
alarm 3 of type 6 is left alone. -/
theorem periodic_display_threads_scan_witness :
    (∀ a ∈ [live_alarm 1 5 "a", { live_alarm 2 5 "b" with time := 99 }, live_alarm 3 6 "c"],
      a.type = 5 → a.is_done = 0 → -2 ^ 31 ≤ a.time - 100 ∧ a.time - 100 < 2 ^ 31) ∧
    (periodic_display_threads_iter 5 100
      { alarm_list :=
          [live_alarm 1 5 "a", { live_alarm 2 5 "b" with time := 99 }, live_alarm 3 6 "c"]
        thread_list := [{ type := 5, is_created := 1 }]
        removal_list := [] }).state.alarm_list =
      [live_alarm 1 5 "a", { done_alarm 2 5 "b" with time := 99 }, live_alarm 3 6 "c"] ∧
    (periodic_display_threads_iter 5 100
      { alarm_list :=
          [live_alarm 1 5 "a", { live_alarm 2 5 "b" with time := 99 }, live_alarm 3 6 "c"]
        thread_list := [{ type := 5, is_created := 1 }]
        removal_list := [] }).printed = [(live_alarm 1 5 "a", 0)] :=
  ⟨by decide,
    (periodic_display_threads_scan 5 100
      { alarm_list :=
          [live_alarm 1 5 "a", { live_alarm 2 5 "b" with time := 99 }, live_alarm 3 6 "c"]
        thread_list := [{ type := 5, is_created := 1 }]
        removal_list := [] } (by decide)).1.trans (by decide),
    (periodic_display_threads_scan 5 100
      { alarm_list :=
          [live_alarm 1 5 "a", { live_alarm 2 5 "b" with time := 99 }, live_alarm 3 6 "c"]
        thread_list := [{ type := 5, is_created := 1 }]
        removal_list := [] } (by decide)).2.1.trans (by decide)⟩

/-- C20 at the failing input, a line of the first form whose text is 128 times
the letter `a`: the 128 bytes of the stored message are the 128 letters, and no
terminator is among them. -/
theorem main_message_without_terminator :
    (new_alarm 0 (alarm_line 5 1 2 (List.replicate 128 (Char.ofNat 97)))).message.data =
      List.replicate 128 (Char.ofNat 97) ∧
    NUL ∉ (new_alarm 0 (alarm_line 5 1 2 (List.replicate 128 (Char.ofNat 97)))).message.data := by
  have hne : ∀ ch ∈ List.replicate 128 (Char.ofNat 97), ch ≠ NUL := by
    intro ch hch
    rw [List.eq_of_mem_replicate hch]
    decide
  have h1 : strncpy (List.replicate 128 (Char.ofNat 97) ++ [NUL]) 128 =
      List.replicate 128 (Char.ofNat 97) := by
    rw [strncpy_of_long _ [NUL] 128 hne (by simp) (by simp)]
    simp
  have h2 : strncpy (List.replicate 128 (Char.ofNat 97)) 128 =
      List.replicate 128 (Char.ofNat 97) := by
    have := strncpy_of_long (List.replicate 128 (Char.ofNat 97)) [] 128 hne (by simp) (by simp)
    simpa using this
  have hmsg : (new_alarm 0 (alarm_line 5 1 2 (List.replicate 128 (Char.ofNat 97)))).message.data =
      List.replicate 128 (Char.ofNat 97) := by
    simp only [new_alarm, alarm_line, h1, h2]
  rw [hmsg]
  exact ⟨rfl, fun h => hne NUL h rfl⟩

/-- C21, the sentinel of the sweep: when the first node with `is_done` set has a
negative number, `remove_alarms_that_are_done` returns the list as it was, so
that node and every done node after it stay in the list; the outcome is the one
of a list with no done node, where `msg_number` keeps its initial `-1`. -/
theorem remove_alarms_that_are_done_sentinel (l : List alarm_t) (next : alarm_t)
    (hfirst : l.find? (fun a => decide (a.is_done ≠ 0)) = some next)
    (hneg : next.number < 0) :
    remove_alarms_that_are_done l = l ∧
    next ∈ remove_alarms_that_are_done l ∧
    (∀ a ∈ l, a.is_done ≠ 0 → a ∈ remove_alarms_that_are_done l) := by
  have h : remove_alarms_that_are_done l = l := by
    rw [remove_alarms_that_are_done]
    split
    · rfl
    · rename_i n h'
      rw [hfirst] at h'
      cases h'
      simp [hneg]
  rw [h]
  exact ⟨rfl, List.mem_of_find?_eq_some hfirst, fun a ha _ => ha⟩

/-- An instance of C21: the done alarm numbered -3 in front stops the sweep, and
the done alarm 2 behind it stays as well. -/
theorem remove_alarms_that_are_done_sentinel_witness :
    [done_alarm (-3) 1 "a", done_alarm 2 1 "b"].find? (fun a => decide (a.is_done ≠ 0)) =
      some (done_alarm (-3) 1 "a") ∧
    (done_alarm (-3) 1 "a").number < 0 ∧
    remove_alarms_that_are_done [done_alarm (-3) 1 "a", done_alarm 2 1 "b"] =
      [done_alarm (-3) 1 "a", done_alarm 2 1 "b"] :=
  ⟨by decide, by decide,
    (remove_alarms_that_are_done_sentinel [done_alarm (-3) 1 "a", done_alarm 2 1 "b"]
      (done_alarm (-3) 1 "a") (by decide) (by decide)).1⟩

/-- C22, two passes reconcile the thread list: when every registered type is
positive, after two iterations of `alarm_thread` in a row every record left has
its thread created and a live alarm of its type in the alarm list, and the
removal list is empty.  One iteration is not enough: from
`cancelled_alarm_state` it creates the thread for type 5 and then drains alarm 1,
leaving the created record of type 5 and no alarm. -/
theorem alarm_thread_two_passes (s : State) (hpos : ∀ t ∈ s.thread_list, 0 < t.type) :
    (∀ t ∈ (alarm_thread_iter (alarm_thread_iter s).1).1.thread_list,
      t.is_created ≠ 0 ∧
      ∃ a ∈ (alarm_thread_iter (alarm_thread_iter s).1).1.alarm_list,
        a.type = t.type ∧ a.is_done = 0) ∧
    (alarm_thread_iter (alarm_thread_iter s).1).1.removal_list = [] ∧
    (∀ t ∈ cancelled_alarm_state.thread_list, 0 < t.type) ∧
    alarm_thread_iter cancelled_alarm_state =
      ({ alarm_list := [], thread_list := [{ type := 5, is_created := 1 }],
         removal_list := [] }, [5]) := by
  refine ⟨?_, rfl, by decide, ?_⟩
  · exact alarm_thread_iter_reconciled (alarm_thread_iter s).1
      (alarm_thread_iter_thread_pos s hpos) rfl
  · exact (alarm_thread_iter_filtered cancelled_alarm_state (by decide) (by decide)
      (by decide)).trans (by decide)

/-- An instance of C22: from `cancelled_alarm_state` the second iteration prunes
the record the first one left without an alarm. -/
theorem alarm_thread_two_passes_witness :
    (∀ t ∈ cancelled_alarm_state.thread_list, 0 < t.type) ∧
    ∀ t ∈ (alarm_thread_iter (alarm_thread_iter cancelled_alarm_state).1).1.thread_list,
      t.is_created ≠ 0 ∧
      ∃ a ∈ (alarm_thread_iter (alarm_thread_iter cancelled_alarm_state).1).1.alarm_list,
        a.type = t.type ∧ a.is_done = 0 :=
  ⟨by decide, (alarm_thread_two_passes cancelled_alarm_state (by decide)).1⟩

/-- C23, remove undoes insert: on any list, sorted or not,
`remove_from_alarm_list` of the number of an alarm after `add_to_alarm_list` of
that alarm gives what it gives on the list itself. -/
theorem remove_from_alarm_list_after_add (s : List alarm_t) (a : alarm_t) :
    remove_from_alarm_list a.number (add_to_alarm_list a s) =
      remove_from_alarm_list a.number s := by
  rw [remove_from_alarm_list_eq_filter, remove_from_alarm_list_eq_filter]
  exact add_to_alarm_list_filter_ne a s

/-- C24, submissions with distinct numbers commute: on any list, the strictly
ascending ones among them, `add_to_alarm_list` of `a` then of `b` gives the list
that `add_to_alarm_list` of `b` then of `a` gives. -/
theorem add_to_alarm_list_commute (s : List alarm_t) (a b : alarm_t)
    (hab : a.number ≠ b.number) :
    add_to_alarm_list b (add_to_alarm_list a s) =
      add_to_alarm_list a (add_to_alarm_list b s) :=
  add_to_alarm_list_comm a b hab s

/-- An instance of C24: alarms 2 and 4 submitted to the list of alarms 1 and 3, in
either order. -/
theorem add_to_alarm_list_commute_witness :
    (live_alarm 2 9 "x").number ≠ (live_alarm 4 9 "y").number ∧
    add_to_alarm_list (live_alarm 4 9 "y")
      (add_to_alarm_list (live_alarm 2 9 "x") [live_alarm 1 9 "a", live_alarm 3 9 "b"]) =
    add_to_alarm_list (live_alarm 2 9 "x")
      (add_to_alarm_list (live_alarm 4 9 "y") [live_alarm 1 9 "a", live_alarm 3 9 "b"]) :=
  ⟨by decide,
    add_to_alarm_list_commute [live_alarm 1 9 "a", live_alarm 3 9 "b"]
      (live_alarm 2 9 "x") (live_alarm 4 9 "y") (by decide)⟩

end AlarmCond
